import Mathlib

/-!
Verification of the Cursor-Azure-GPT-5 translation gateway.

This file gives a shallow embedding, in Lean 4, of the core translation layer
of the gateway:

* `app/common/sse.py` — the incremental SSE decoder and the SSE encoder;
* `app/azure/request_adapter.py` — the request translator (chat messages →
  Responses-API input items / instructions), the call-id normalizer (including
  a full SHA-256 implementation), and the outbound-body builder;
* `app/azure/response_adapter.py` — the streaming response translator (the
  per-stream state machine that turns provider SSE events into
  chat-completion chunks).

JSON-serializable Python values are embedded as the inductive type `PyVal`
(numbers are modelled as integers; floating point is outside the model).
Byte strings are modelled at the character level: every byte-level operation
performed by the source (`find(b"\n")`, prefix tests against ASCII literals,
slicing at ASCII delimiters) commutes with UTF-8 decoding, because UTF-8
never embeds ASCII bytes inside a multi-byte sequence, so the character-level
model is faithful for well-formed UTF-8 traffic.  Wall-clock timestamps and
the random stream-id generator are modelled as parameters.  Functions from
the Python standard library that the source calls (`json.dumps`,
`json.loads`, `str.splitlines`, `str.replace`, `hashlib.sha256`, …) are
embedded alongside with their documented semantics.
-/

/-- A JSON-serializable Python value (`None`, `bool`, `int`, `str`, `list`,
`dict` with string keys).  This is the value space manipulated by the
adapters; floats are outside the model. -/
inductive PyVal where
  | none
  | bool (b : Bool)
  | int (n : Int)
  | str (s : String)
  | list (xs : List PyVal)
  | dict (fs : List (String × PyVal))

/-- Python truthiness for `PyVal`: `None`, `False`, `0`, `""`, `[]`, `{}`
are falsy, everything else truthy. -/
def PyVal.truthy : PyVal → Bool
  | .none => false
  | .bool b => b
  | .int n => n != 0
  | .str s => s != ""
  | .list xs => !xs.isEmpty
  | .dict fs => !fs.isEmpty

/-- Association-list lookup for embedded Python dicts (keys of a Python dict
are unique, so first-match lookup is faithful). -/
def assocLookup : List (String × PyVal) → String → Option PyVal
  | [], _ => Option.none
  | (k, v) :: rest, key => if k == key then some v else assocLookup rest key

/-- `d.get(key)` on a Python dict: the stored value, or `None` when the key
is absent (a stored `None` and an absent key are indistinguishable, exactly
as in Python). -/
def PyVal.get : PyVal → String → PyVal
  | .dict fs, key =>
    match assocLookup fs key with
    | some v => v
    | Option.none => .none
  | _, _ => .none

/-- `d.get(key, default)` on a Python dict: the stored value when the key is
present (even if that value is `None`), else `default`. -/
def PyVal.getD : PyVal → String → PyVal → PyVal
  | .dict fs, key, dflt =>
    match assocLookup fs key with
    | some v => v
    | Option.none => dflt
  | _, _, dflt => dflt

/-- `key in d` on a Python dict. -/
def PyVal.hasKey : PyVal → String → Bool
  | .dict fs, key => (assocLookup fs key).isSome
  | _, _ => false

/-- Python `==` between a value and a string literal: true exactly when the
value is that string (Python cross-type `==` on JSON scalars is false). -/
def PyVal.isStr : PyVal → String → Bool
  | .str t, s => t == s
  | _, _ => false

/-- Worker for `natToChars`; the fuel bounds the recursion depth (the fuel-0
arm only fires for one-digit numbers when the initial fuel is at least the
starting number). -/
def natToCharsAux : Nat → Nat → List Char
  | 0, n => [Char.ofNat (48 + n % 10)]
  | fuel + 1, n =>
    if n < 10 then [Char.ofNat (48 + n)]
    else natToCharsAux fuel (n / 10) ++ [Char.ofNat (48 + n % 10)]

/-- Decimal digits of a natural number, most significant first. -/
def natToChars (n : Nat) : List Char :=
  natToCharsAux n n

/-- Decimal rendering of an integer (Python `repr`/JSON serialization of an
`int`). -/
def intToChars : Int → List Char
  | .ofNat m => natToChars m
  | .negSucc m => '-' :: natToChars (m + 1)

/-- Lowercase hexadecimal digit for a nibble. -/
def hexDigitChar (n : Nat) : Char :=
  if n < 10 then Char.ofNat (48 + n) else Char.ofNat (87 + n)

/-- JSON escaping of one character as performed by `json.dumps` with
`ensure_ascii=False`: `"` and `\` are escaped, control characters below
`0x20` use the short escapes `\b \t \n \f \r` or `\u00xx`, every other
character is emitted raw. -/
def escapeJsonChar (c : Char) : List Char :=
  if c = '"' then ['\\', '"']
  else if c = '\\' then ['\\', '\\']
  else if c.toNat < 0x20 then
    if c = Char.ofNat 0x08 then ['\\', 'b']
    else if c = Char.ofNat 0x09 then ['\\', 't']
    else if c = Char.ofNat 0x0a then ['\\', 'n']
    else if c = Char.ofNat 0x0c then ['\\', 'f']
    else if c = Char.ofNat 0x0d then ['\\', 'r']
    else ['\\', 'u', '0', '0', hexDigitChar (c.toNat / 16), hexDigitChar (c.toNat % 16)]
  else [c]

/-- JSON escaping of a character list. -/
def escapeJsonChars (cs : List Char) : List Char :=
  (cs.map escapeJsonChar).flatten

/-- Join character lists with a separator. -/
def joinSep (sep : List Char) : List (List Char) → List Char
  | [] => []
  | [x] => x
  | x :: xs => x ++ sep ++ joinSep sep xs

mutual

/-- `json.dumps(v, ensure_ascii=False)` with item separator `isep` and
key separator `ksep`, as a character list. -/
def dumpVal (isep ksep : List Char) : PyVal → List Char
  | .none => ['n', 'u', 'l', 'l']
  | .bool true => 't' :: ['r', 'u', 'e']
  | .bool false => ['f', 'a', 'l', 's', 'e']
  | .int n => intToChars n
  | .str s => '"' :: (escapeJsonChars s.data ++ ['"'])
  | .list xs => '[' :: (dumpElems isep ksep xs ++ [']'])
  | .dict fs => '{' :: (dumpMembers isep ksep fs ++ ['}'])

/-- Serialized array elements joined by `isep`. -/
def dumpElems (isep ksep : List Char) : List PyVal → List Char
  | [] => []
  | [x] => dumpVal isep ksep x
  | x :: xs => dumpVal isep ksep x ++ isep ++ dumpElems isep ksep xs

/-- Serialized object members joined by `isep`. -/
def dumpMembers (isep ksep : List Char) : List (String × PyVal) → List Char
  | [] => []
  | [(k, v)] => '"' :: (escapeJsonChars k.data ++ ['"'] ++ ksep ++ dumpVal isep ksep v)
  | (k, v) :: fs =>
    '"' :: (escapeJsonChars k.data ++ ['"'] ++ ksep ++ dumpVal isep ksep v) ++ isep
      ++ dumpMembers isep ksep fs

end

/-- `json.dumps(v, ensure_ascii=False, separators=(",", ":"))` — the compact
serialization used by the SSE encoder. -/
def jsonDumpsCompact (v : PyVal) : String :=
  String.mk (dumpVal [','] [':'] v)

/-- `json.dumps(v, ensure_ascii=False)` with the default separators
`(", ", ": ")` — used by `content_to_text` for non-list/str/None content. -/
def jsonDumpsDefault (v : PyVal) : String :=
  String.mk (dumpVal [',', ' '] [':', ' '] v)

mutual

/-- Model of Python `repr` on JSON-like values (string escaping inside
`repr` is simplified to plain quoting; no claim exercises it). -/
def pyRepr : PyVal → List Char
  | .none => ['N', 'o', 'n', 'e']
  | .bool true => ['T', 'r', 'u', 'e']
  | .bool false => ['F', 'a', 'l', 's', 'e']
  | .int n => intToChars n
  | .str s => '\'' :: (s.data ++ ['\''])
  | .list xs => '[' :: (pyReprElems xs ++ [']'])
  | .dict fs => '{' :: (pyReprMembers fs ++ ['}'])

/-- `repr` of list elements joined by `", "`. -/
def pyReprElems : List PyVal → List Char
  | [] => []
  | [x] => pyRepr x
  | x :: xs => pyRepr x ++ [',', ' '] ++ pyReprElems xs

/-- `repr` of dict members joined by `", "`. -/
def pyReprMembers : List (String × PyVal) → List Char
  | [] => []
  | [(k, v)] => '\'' :: (k.data ++ ['\'', ':', ' '] ++ pyRepr v)
  | (k, v) :: fs => '\'' :: (k.data ++ ['\'', ':', ' '] ++ pyRepr v) ++ [',', ' '] ++ pyReprMembers fs

end

/-- Python `str(v)`: identity on strings, `repr` otherwise. -/
def pyStr : PyVal → String
  | .str s => s
  | v => String.mk (pyRepr v)

/-! ## SHA-256 (`hashlib.sha256(...).hexdigest()`)

A full embedding of SHA-256 over byte lists, used by
`RequestAdapter._normalize_call_id` for tool-call ids longer than 64
characters.  Words are `Nat` reduced modulo `2^32` where overflow matters. -/

/-- UTF-8 encoding of one character (`str.encode("utf-8")`). -/
def utf8EncodeChar (c : Char) : List Nat :=
  let n := c.toNat
  if n < 0x80 then [n]
  else if n < 0x800 then [0xC0 ||| (n >>> 6), 0x80 ||| (n &&& 0x3F)]
  else if n < 0x10000 then
    [0xE0 ||| (n >>> 12), 0x80 ||| ((n >>> 6) &&& 0x3F), 0x80 ||| (n &&& 0x3F)]
  else
    [0xF0 ||| (n >>> 18), 0x80 ||| ((n >>> 12) &&& 0x3F),
     0x80 ||| ((n >>> 6) &&& 0x3F), 0x80 ||| (n &&& 0x3F)]

/-- UTF-8 encoding of a string as a byte list. -/
def utf8Encode (s : String) : List Nat :=
  (s.data.map utf8EncodeChar).flatten

/-- Right rotation of a 32-bit word. -/
def rotr32 (n x : Nat) : Nat :=
  ((x >>> n) ||| (x <<< (32 - n))) % 4294967296

/-- The SHA-256 round constants. -/
def sha256K : List Nat :=
  [1116352408, 1899447441, 3049323471, 3921009573, 961987163, 1508970993,
   2453635748, 2870763221, 3624381080, 310598401, 607225278, 1426881987,
   1925078388, 2162078206, 2614888103, 3248222580, 3835390401, 4022224774,
   264347078, 604807628, 770255983, 1249150122, 1555081692, 1996064986,
   2554220882, 2821834349, 2952996808, 3210313671, 3336571891, 3584528711,
   113926993, 338241895, 666307205, 773529912, 1294757372, 1396182291,
   1695183700, 1986661051, 2177026350, 2456956037, 2730485921, 2820302411,
   3259730800, 3345764771, 3516065817, 3600352804, 4094571909, 275423344,
   430227734, 506948616, 659060556, 883997877, 958139571, 1322822218,
   1537002063, 1747873779, 1955562222, 2024104815, 2227730452, 2361852424,
   2428436474, 2756734187, 3204031479, 3329325298]

/-- Big-endian byte rendering of `n` on `k` bytes. -/
def bytesBE (k : Nat) (n : Nat) : List Nat :=
  (List.range k).map (fun i => (n >>> (8 * (k - 1 - i))) % 256)

/-- SHA-256 message padding: append `0x80`, zero bytes up to 56 mod 64, then
the bit length on 8 big-endian bytes. -/
def sha256Pad (msg : List Nat) : List Nat :=
  let z := (119 - msg.length % 64) % 64
  msg ++ [0x80] ++ List.replicate z 0 ++ bytesBE 8 (8 * msg.length)

/-- Split a byte list into 64-byte blocks. -/
def chunks64 (l : List Nat) : List (List Nat) :=
  if l.isEmpty then [] else l.take 64 :: chunks64 (l.drop 64)
termination_by l.length
decreasing_by
  simp only [List.length_drop]
  cases l with
  | nil => simp_all
  | cons a as => simp; omega

/-- Big-endian 32-bit words from a byte list, four bytes at a time. -/
def bytesToWords : List Nat → List Nat
  | a :: b :: c :: d :: rest => (((a * 256 + b) * 256 + c) * 256 + d) :: bytesToWords rest
  | _ => []

/-- One message-schedule extension step: append word `w[i]` computed from
`w[i-16]`, `w[i-15]`, `w[i-7]`, `w[i-2]`. -/
def scheduleStep (w : List Nat) : List Nat :=
  let i := w.length
  let w15 := w.getD (i - 15) 0
  let w2 := w.getD (i - 2) 0
  let s0 := (rotr32 7 w15) ^^^ (rotr32 18 w15) ^^^ (w15 >>> 3)
  let s1 := (rotr32 17 w2) ^^^ (rotr32 19 w2) ^^^ (w2 >>> 10)
  w ++ [(w.getD (i - 16) 0 + s0 + w.getD (i - 7) 0 + s1) % 4294967296]

/-- The hash state: eight 32-bit working variables. -/
structure Sha256State where
  a : Nat
  b : Nat
  c : Nat
  d : Nat
  e : Nat
  f : Nat
  g : Nat
  h : Nat

/-- The SHA-256 initial hash value. -/
def sha256Init : Sha256State :=
  ⟨1779033703, 3144134277, 1013904242, 2773480762,
   1359893119, 2600822924, 528734635, 1541459225⟩

/-- One compression round with round constant `ki` and schedule word `wi`. -/
def sha256Round (s : Sha256State) (kw : Nat × Nat) : Sha256State :=
  let S1 := (rotr32 6 s.e) ^^^ (rotr32 11 s.e) ^^^ (rotr32 25 s.e)
  let ch := (s.e &&& s.f) ^^^ ((s.e ^^^ 0xffffffff) &&& s.g)
  let temp1 := (s.h + S1 + ch + kw.1 + kw.2) % 4294967296
  let S0 := (rotr32 2 s.a) ^^^ (rotr32 13 s.a) ^^^ (rotr32 22 s.a)
  let maj := (s.a &&& s.b) ^^^ (s.a &&& s.c) ^^^ (s.b &&& s.c)
  let temp2 := (S0 + maj) % 4294967296
  ⟨(temp1 + temp2) % 4294967296, s.a, s.b, s.c,
   (s.d + temp1) % 4294967296, s.e, s.f, s.g⟩

/-- Process one 64-byte block: extend the schedule to 64 words, run 64
rounds, add the result into the running hash. -/
def sha256Block (hs : Sha256State) (block : List Nat) : Sha256State :=
  let ws := scheduleStep^[48] (bytesToWords block)
  let fin := (sha256K.zip ws).foldl sha256Round hs
  ⟨(hs.a + fin.a) % 4294967296, (hs.b + fin.b) % 4294967296,
   (hs.c + fin.c) % 4294967296, (hs.d + fin.d) % 4294967296,
   (hs.e + fin.e) % 4294967296, (hs.f + fin.f) % 4294967296,
   (hs.g + fin.g) % 4294967296, (hs.h + fin.h) % 4294967296⟩

/-- SHA-256 digest of a byte list, as eight 32-bit words. -/
def sha256Words (msg : List Nat) : List Nat :=
  let fin := (chunks64 (sha256Pad msg)).foldl sha256Block sha256Init
  [fin.a, fin.b, fin.c, fin.d, fin.e, fin.f, fin.g, fin.h]

/-- Lowercase hexadecimal rendering of a 32-bit word on 8 digits. -/
def word32Hex (w : Nat) : List Char :=
  (List.range 8).map (fun i => hexDigitChar ((w >>> (4 * (7 - i))) % 16))

/-- `hashlib.sha256(s.encode("utf-8")).hexdigest()`: the 64-character
lowercase-hex SHA-256 digest of a string. -/
def sha256Hex (s : String) : String :=
  String.mk (((sha256Words (utf8Encode s)).map word32Hex).flatten)

/-! ## Python string helpers used by the request adapter -/

/-- Python `str.replace(pat, repl)`: replace every non-overlapping occurrence
of `pat`, scanning left to right (for nonempty `pat`; the empty pattern is
never used by the source). -/
def replaceAllAux (pat repl : List Char) : Nat → List Char → List Char
  | _, [] => []
  | 0, cs => cs
  | fuel + 1, c :: rest =>
    if pat.isPrefixOf (c :: rest) then
      repl ++ replaceAllAux pat repl fuel ((c :: rest).drop pat.length)
    else c :: replaceAllAux pat repl fuel rest

/-- Python `str.replace(pat, repl)` dispatch (the empty pattern is never
used by the source; the fuel, the input length, covers the scan since every
step consumes at least one character). -/
def replaceAll (cs pat repl : List Char) : List Char :=
  if pat = [] then cs else replaceAllAux pat repl cs.length cs

/-- Python `str.lower()` (ASCII case mapping; the source only compares
against ASCII literals). -/
def pyLower (s : String) : String :=
  String.mk (s.data.map Char.toLower)

/-! ## `RequestAdapter` (`app/azure/request_adapter.py`) -/

/-- `content_to_text`'s loop over the parts of a list-valued `content`
(`request_adapter.py` lines 82–91): a dict part with `type` in
`{text, input_text}` and a `text` key contributes `str(part.get("text", ""))`;
otherwise a dict part with a string `content` value contributes that string;
otherwise a dict part contributes nothing; a non-dict part contributes
`str(part)`. -/
def contentParts : List PyVal → List String
  | [] => []
  | it :: rest =>
    match it with
    | PyVal.dict _ =>
      if ((it.get "type").isStr "text" || (it.get "type").isStr "input_text")
          && it.hasKey "text" then
        pyStr (it.getD "text" (.str "")) :: contentParts rest
      else if it.hasKey "content" then
        match it.get "content" with
        | .str s => s :: contentParts rest
        | _ => contentParts rest
      else contentParts rest
    | _ => pyStr it :: contentParts rest

/-- `content_to_text` (`request_adapter.py` lines 77–93): `None` → `""`;
a string → itself; a list → newline-join of its nonempty rendered parts;
anything else → `json.dumps(c, ensure_ascii=False)`. -/
def contentToText : PyVal → String
  | .none => ""
  | .str s => s
  | .list items => "\n".intercalate ((contentParts items).filter (fun p => p ≠ ""))
  | v => jsonDumpsDefault v

/-- `RequestAdapter._normalize_call_id` (`request_adapter.py` lines 31–49):
falsy original → returned unchanged; a string of length ≤ 64 →
`mapping.get(original, original)`; a longer string already in the mapping →
its stored value; otherwise its SHA-256 hex digest, stored under the
original.  A truthy non-string original raises (Python `len`/hashability
errors), embedded as `Except.error`. -/
def normalizeCallId (original : PyVal) (mapping : List (String × String)) :
    Except String (PyVal × List (String × String)) :=
  if !original.truthy then .ok (original, mapping)
  else
    match original with
    | .str s =>
      if s.length ≤ 64 then
        .ok (.str ((List.lookup s mapping).getD s), mapping)
      else
        match List.lookup s mapping with
        | some v => .ok (.str v, mapping)
        | Option.none =>
          let norm := sha256Hex s
          .ok (.str norm, mapping ++ [(s, norm)])
    | _ => .error "TypeError"

/-- The per-tool-call loop of `_messages_to_responses_input_and_instructions`
(`request_adapter.py` lines 131–142): each entry yields a `function_call`
input item with the normalized call id.  Accumulates items and the call-id
map; a non-dict entry or non-dict `function` value raises. -/
def toolCallsLoop : List PyVal → List PyVal → List (String × String) →
    Except String (List PyVal × List (String × String))
  | [], items, cmap => .ok (items, cmap)
  | tc :: rest, items, cmap =>
    match tc with
    | PyVal.dict _ =>
      match tc.getD "function" (PyVal.dict []) with
      | PyVal.dict ffs => do
        let fn := PyVal.dict ffs
        let (ncid, cmap') ← normalizeCallId (tc.get "id") cmap
        let item := PyVal.dict [("type", .str "function_call"), ("name", fn.get "name"),
          ("arguments", fn.get "arguments"), ("call_id", ncid)]
        toolCallsLoop rest (items ++ [item]) cmap'
      | _ => .error "AttributeError"
    | _ => .error "AttributeError"

/-- The message loop of `_messages_to_responses_input_and_instructions`
(`request_adapter.py` lines 98–142), carrying the instruction parts, the
input items and the call-id map.  `system`/`developer` messages contribute
their nonempty rendered text to the instructions; a `tool` message becomes a
`function_call_output` item with normalized call id; any other message
becomes a `message` item (`input_text` part for role `user`, else
`output_text`) followed by one `function_call` item per tool-call entry. -/
def messagesLoop : List PyVal → List String → List PyVal → List (String × String) →
    Except String (List String × List PyVal × List (String × String))
  | [], ins, items, cmap => .ok (ins, items, cmap)
  | m :: rest, ins, items, cmap =>
    match m with
    | PyVal.dict _ =>
      let role := m.get "role"
      let c := m.get "content"
      if role.isStr "system" || role.isStr "developer" then
        let text := contentToText c
        messagesLoop rest (if text ≠ "" then ins ++ [text] else ins) items cmap
      else if role.isStr "tool" then do
        let (ncid, cmap') ← normalizeCallId (m.get "tool_call_id") cmap
        let item := PyVal.dict [("type", .str "function_call_output"),
          ("output", .str (contentToText c)), ("status", .str "completed"),
          ("call_id", ncid)]
        messagesLoop rest ins (items ++ [item]) cmap'
      else do
        let text := contentToText c
        let item := PyVal.dict [
          ("role", if role.truthy then role else .str "user"),
          ("content", PyVal.list [PyVal.dict [
            ("type", .str (if role.isStr "user" then "input_text" else "output_text")),
            ("text", .str text)]])]
        let tcs := m.get "tool_calls"
        if tcs.truthy then
          match tcs with
          | .list tlist => do
            let (items', cmap') ← toolCallsLoop tlist (items ++ [item]) cmap
            messagesLoop rest ins items' cmap'
          | _ => .error "TypeError"
        else
          messagesLoop rest ins (items ++ [item]) cmap
    | _ => .error "AttributeError"

/-- `RequestAdapter._messages_to_responses_input_and_instructions`
(`request_adapter.py` lines 71–148): returns the ordered input items (`None`
when empty) and the double-newline-joined instructions (`None` when no
`system`/`developer` text), starting from a fresh call-id map. -/
def messagesToResponsesInput (messages : List PyVal) :
    Except String (Option (List PyVal) × Option String) := do
  let (ins, items, _) ← messagesLoop messages [] [] []
  .ok (if items.isEmpty then Option.none else some items,
       if ins.isEmpty then Option.none else some ("\n\n".intercalate ins))

/-- One entry of `RequestAdapter._transform_tools_for_responses`
(`request_adapter.py` lines 154–172): a `{type:"function", function:{...}}`
dict is flattened to `{type, name, description?, parameters?, strict:false}`;
everything else passes through unchanged. -/
def transformTool (t : PyVal) : PyVal :=
  match t with
  | PyVal.dict _ =>
    if (t.get "type").isStr "function" then
      match t.get "function" with
      | PyVal.dict _ =>
        let f := t.get "function"
        PyVal.dict ([("type", .str "function"), ("name", f.get "name")]
          ++ (if f.hasKey "description" then [("description", f.get "description")] else [])
          ++ (if f.hasKey "parameters" then [("parameters", f.get "parameters")] else [])
          ++ [("strict", .bool false)])
      | _ => t
    else t
  | _ => t

/-- `RequestAdapter._transform_tools_for_responses` (`request_adapter.py`
lines 150–173): non-list input passes through; a list is transformed
entrywise. -/
def transformTools (tools : PyVal) : PyVal :=
  match tools with
  | .list ts => .list (ts.map transformTool)
  | v => v

/-- `RequestAdapter._transform_tool_choice` (`request_adapter.py` lines
175–185): `None`/`"auto"`/`"none"` pass through; `{type:"function",
function:{name}}` becomes `{type:"function", name}` when a truthy name is
present; anything else passes through.  A truthy non-dict `function` value
raises. -/
def transformToolChoice (tc : PyVal) : Except String PyVal :=
  if (match tc with | .none => true | _ => false) || tc.isStr "auto" || tc.isStr "none" then
    .ok tc
  else
    match tc with
    | PyVal.dict _ =>
      if (tc.get "type").isStr "function" then
        let fn := if (tc.get "function").truthy then tc.get "function" else PyVal.dict []
        match fn with
        | PyVal.dict _ =>
          let name := fn.get "name"
          if name.truthy then .ok (PyVal.dict [("type", .str "function"), ("name", name)])
          else .ok tc
        | _ => .error "AttributeError"
      else .ok tc
    | _ => .ok tc

/-- The external configuration consumed by `RequestAdapter.adapt`
(`AZURE_DEPLOYMENT`, `AZURE_SUMMARY_LEVEL`, `AZURE_TRUNCATION`). -/
structure Settings where
  deployment : String
  summaryLevel : String
  truncation : String

/-- The reasoning-effort derivation of `RequestAdapter.adapt`
(`request_adapter.py` lines 263–267):
`inbound_model.replace("gpt-", "").lower()` — every occurrence of `gpt-` is
removed (Python `str.replace` replaces all occurrences, not only a prefix) —
then membership in `{high, medium, low}` is required, else `ValueError`. -/
def codeDerivedEffort (model : String) : String :=
  pyLower (String.mk (replaceAll model.data "gpt-".data "".data))

/-- The membership check and `ValueError` of `RequestAdapter.adapt`
(`request_adapter.py` lines 263–267). -/
def deriveReasoningEffort (model : String) : Except String String :=
  if codeDerivedEffort model == "high" || codeDerivedEffort model == "medium"
      || codeDerivedEffort model == "low" then .ok (codeDerivedEffort model)
  else .error "Model name must be either gpt-high, gpt-medium, or gpt-low"

/-- The outbound-body construction of `RequestAdapter.adapt`
(`request_adapter.py` lines 224–276), over a parsed JSON payload dict.
Mirrors the source order: messages/tools/tool_choice/top_p extraction with
Python `or` defaults, `max_tokens or max_output_tokens`,
`user or prompt_cache_key`, the messages mapping (only when the
`or []`-defaulted messages value is a list), then the body fields in
insertion order, the reasoning-effort validation (`ValueError` embedded as
`Except.error`; a non-string model raises `AttributeError`), and the fixed
trailing fields. -/
def buildResponsesBody (payload : PyVal) (settings : Settings) :
    Except String (List (String × PyVal)) := do
  let messages := if (payload.get "messages").truthy then payload.get "messages"
    else PyVal.list []
  let tools_in := if (payload.get "tools").truthy then payload.get "tools"
    else PyVal.list []
  let tool_choice_in := payload.get "tool_choice"
  let top_p := payload.get "top_p"
  let max_tokens := if (payload.get "max_tokens").truthy then payload.get "max_tokens"
    else payload.get "max_output_tokens"
  let prompt_cache_key := if (payload.get "user").truthy then payload.get "user"
    else payload.get "prompt_cache_key"
  let mapped ← (match messages with
    | .list ms => messagesToResponsesInput ms
    | _ => .ok (Option.none, Option.none))
  let body₀ : List (String × PyVal) :=
    (match mapped.2 with
     | some s => if s ≠ "" then [("instructions", PyVal.str s)] else []
     | Option.none => [])
    ++ (match mapped.1 with
        | some items => [("input", PyVal.list items)]
        | Option.none => [])
    ++ [("model", PyVal.str settings.deployment)]
    ++ (if tools_in.truthy then [("tools", transformTools tools_in)] else [])
  let mapped_tool_choice ← transformToolChoice tool_choice_in
  let body₁ := body₀
    ++ (match mapped_tool_choice with
        | PyVal.none => []
        | v => [("tool_choice", v)])
    ++ (match top_p with
        | PyVal.none => []
        | v => [("top_p", v)])
    ++ (match max_tokens with
        | PyVal.none => []
        | v => [("max_output_tokens", v)])
    ++ (match prompt_cache_key with
        | PyVal.none => []
        | v => [("prompt_cache_key", v)])
    ++ [("stream", PyVal.bool true)]
  let effort ← (match payload.get "model" with
    | .str s => deriveReasoningEffort s
    | _ => .error "AttributeError")
  .ok (body₁
    ++ [("reasoning", PyVal.dict [("effort", PyVal.str effort),
          ("summary", PyVal.str settings.summaryLevel)]),
        ("store", PyVal.bool false),
        ("stream_options", PyVal.dict [("include_obfuscation", PyVal.bool false)]),
        ("truncation", PyVal.str settings.truncation)])

/-- The orchestrator's view of one forwarded request (`AzureAdapter.forward`,
`app/azure/adapter.py` lines 40–62): the upstream HTTP call happens only when
`RequestAdapter.adapt` returned request kwargs; an exception raised during
adaptation (such as the reasoning-effort `ValueError`) propagates before any
upstream call is made. -/
inductive ForwardOutcome where
  | upstreamCall (body : List (String × PyVal))
  | failedNoCall (msg : String)

/-- Dispatch of `AzureAdapter.forward` on the outcome of request
adaptation. -/
def forwardRequest (payload : PyVal) (settings : Settings) : ForwardOutcome :=
  match buildResponsesBody payload settings with
  | .ok body => .upstreamCall body
  | .error e => .failedNoCall e

/-! ## SSE codec (`app/common/sse.py`)

The byte streams are modelled at character level (see the header comment).
`record_sse`/`full_buffer` are out-of-scope recording side effects and carry
no observable behaviour for the decoder's output. -/

/-- ASCII whitespace as stripped by Python `strip()` (the source only strips
JSON/SSE texts, where only ASCII whitespace occurs). -/
def isPyWs (c : Char) : Bool :=
  c = ' ' || c = '\t' || c = '\n' || c = '\r' || c = Char.ofNat 0x0b || c = Char.ofNat 0x0c

/-- Python `strip()` on a character list. -/
def pyStripChars (cs : List Char) : List Char :=
  ((cs.dropWhile isPyWs).reverse.dropWhile isPyWs).reverse

/-- Python `strip()` on a string. -/
def pyStrip (s : String) : String :=
  String.mk (pyStripChars s.data)

/-- The line-boundary characters of Python `str.splitlines`:
`\n \r \v \f \x1c \x1d \x1e \x85    ` (with `\r\n` counting as a
single boundary). -/
def isLineBoundary (c : Char) : Bool :=
  c = '\n' || c = '\r' || c = Char.ofNat 0x0b || c = Char.ofNat 0x0c ||
  c = Char.ofNat 0x1c || c = Char.ofNat 0x1d || c = Char.ofNat 0x1e ||
  c = Char.ofNat 0x85 || c = Char.ofNat 0x2028 || c = Char.ofNat 0x2029

/-- Worker for `pySplitlines`, carrying the current line reversed. -/
def pySplitlinesAux (cur : List Char) : List Char → List (List Char)
  | [] => [cur.reverse]
  | '\r' :: '\n' :: cs' =>
    cur.reverse :: (if cs'.isEmpty then [] else pySplitlinesAux [] cs')
  | c :: cs =>
    if isLineBoundary c then
      cur.reverse :: (if cs.isEmpty then [] else pySplitlinesAux [] cs)
    else pySplitlinesAux (c :: cur) cs

/-- Python `str.splitlines()`. -/
def pySplitlines (cs : List Char) : List (List Char) :=
  if cs.isEmpty then [] else pySplitlinesAux [] cs

/-- A parsed Server-Sent Event (`SSEEvent` in `app/common/sse.py`): optional
event name, raw data text, optional id, optional retry, and the 1-based
sequence index assigned by the decoder. -/
structure SSEEvent where
  event : Option String
  data : String
  id : Option String
  retry : Option Int
  index : Nat

/-- `SSEEvent.is_done`: the trimmed data equals the literal `[DONE]`. -/
def evIsDone (ev : SSEEvent) : Bool :=
  pyStrip ev.data == "[DONE]"

/-! ### `json.loads` (strict JSON parsing)

Model of `json.loads` as used by `SSEEvent.json`.  The adapters only parse
compact serializations, so inter-token whitespace is not modelled; numbers
are integers (floats are outside the model); `\uXXXX` escapes decode to the
corresponding scalar (surrogate-pair combination is not exercised by any
serializer output).  Crucially for the decoder, the parser is strict: a raw
control character below `0x20` inside a string literal is rejected, exactly
as `json.loads` does by default. -/

/-- Value of a hexadecimal digit character. -/
def hexVal (c : Char) : Option Nat :=
  if '0' ≤ c && c ≤ '9' then some (c.toNat - 48)
  else if 'a' ≤ c && c ≤ 'f' then some (c.toNat - 87)
  else if 'A' ≤ c && c ≤ 'F' then some (c.toNat - 55)
  else Option.none

/-- The single-character JSON escapes. -/
def unescapeChar (c : Char) : Option Char :=
  if c = '"' then some '"'
  else if c = '\\' then some '\\'
  else if c = '/' then some '/'
  else if c = 'b' then some (Char.ofNat 0x08)
  else if c = 'f' then some (Char.ofNat 0x0c)
  else if c = 'n' then some '\n'
  else if c = 'r' then some '\r'
  else if c = 't' then some '\t'
  else Option.none

/-- Parse the body of a JSON string literal (after the opening quote) up to
and including the closing quote; rejects raw control characters
(`strict=True`). -/
def parseStringBody : List Char → Option (List Char × List Char)
  | [] => Option.none
  | c :: r =>
    if c = '"' then some ([], r)
    else if c = '\\' then
      match r with
      | 'u' :: h1 :: h2 :: h3 :: h4 :: r' =>
        match hexVal h1, hexVal h2, hexVal h3, hexVal h4 with
        | some a, some b, some c2, some d =>
          (parseStringBody r').map (fun p => (Char.ofNat (((a * 16 + b) * 16 + c2) * 16 + d) :: p.1, p.2))
        | _, _, _, _ => Option.none
      | e :: r' =>
        match unescapeChar e with
        | some u => (parseStringBody r').map (fun p => (u :: p.1, p.2))
        | Option.none => Option.none
      | [] => Option.none
    else if c.toNat < 0x20 then Option.none
    else (parseStringBody r).map (fun p => (c :: p.1, p.2))

/-- Numeric value of a digit run. -/
def digitsToNat (ds : List Char) : Nat :=
  ds.foldl (fun a c => 10 * a + (c.toNat - 48)) 0

/-- Parse a nonempty run of decimal digits. -/
def parseDigitsRun (cs : List Char) : Option (Nat × List Char) :=
  let ds := cs.takeWhile Char.isDigit
  if ds.isEmpty then Option.none else some (digitsToNat ds, cs.drop ds.length)

mutual

/-- Fueled recursive-descent parser for one JSON value. -/
def parseVal : Nat → List Char → Option (PyVal × List Char)
  | 0, _ => Option.none
  | n + 1, cs =>
    match cs with
    | 'n' :: 'u' :: 'l' :: 'l' :: r => some (.none, r)
    | 't' :: 'r' :: 'u' :: 'e' :: r => some (.bool true, r)
    | 'f' :: 'a' :: 'l' :: 's' :: 'e' :: r => some (.bool false, r)
    | '"' :: r => (parseStringBody r).map (fun p => (.str (String.mk p.1), p.2))
    | '-' :: r => (parseDigitsRun r).map (fun p => (.int (-(p.1 : Int)), p.2))
    | '[' :: ']' :: r => some (.list [], r)
    | '[' :: r => (parseElems n r).map (fun p => (.list p.1, p.2))
    | '{' :: '}' :: r => some (.dict [], r)
    | '{' :: r => (parseMembers n r).map (fun p => (.dict p.1, p.2))
    | c :: r => if c.isDigit then (parseDigitsRun (c :: r)).map (fun p => (.int p.1, p.2))
                else Option.none
    | [] => Option.none

/-- Parse the elements of a nonempty JSON array, consuming the closing
bracket. -/
def parseElems : Nat → List Char → Option (List PyVal × List Char)
  | 0, _ => Option.none
  | n + 1, cs =>
    match parseVal n cs with
    | some (v, ',' :: r) => (parseElems n r).map (fun p => (v :: p.1, p.2))
    | some (v, ']' :: r) => some ([v], r)
    | _ => Option.none

/-- Parse the members of a nonempty JSON object, consuming the closing
brace. -/
def parseMembers : Nat → List Char → Option (List (String × PyVal) × List Char)
  | 0, _ => Option.none
  | n + 1, cs =>
    match cs with
    | '"' :: r =>
      match parseStringBody r with
      | some (k, ':' :: r2) =>
        match parseVal n r2 with
        | some (v, ',' :: r3) =>
          (parseMembers n r3).map (fun p => ((String.mk k, v) :: p.1, p.2))
        | some (v, '}' :: r3) => some ([(String.mk k, v)], r3)
        | _ => Option.none
      | _ => Option.none
    | _ => Option.none

end

/-- `json.loads`: parse a complete JSON text (the whole input must be
consumed). -/
def jsonLoads (s : String) : Option PyVal :=
  match parseVal (s.data.length + 1) s.data with
  | some (v, []) => some v
  | _ => Option.none

/-- `SSEEvent.json`: the stripped data parsed as JSON; `None` for empty
data, the `[DONE]` sentinel, or invalid JSON. -/
def evJson (ev : SSEEvent) : Option PyVal :=
  let text := pyStrip ev.data
  if evIsDone ev || text == "" then Option.none else jsonLoads text

/-! ### The incremental decoder (`SSEDecoder`) -/

/-- Decoder state: the unconsumed buffer tail, the accumulated non-blank
lines of the current event, and the number of events emitted so far. -/
structure DecoderState where
  buffer : List Char
  eventLines : List (List Char)
  seq : Nat

/-- A fresh decoder. -/
def decoderInit : DecoderState := ⟨[], [], 0⟩

/-- Accumulator for `SSEDecoder._parse_event`'s field loop. -/
structure ParseAcc where
  evType : Option String
  dataParts : List (List Char)
  evId : Option String
  retry : Option Int

/-- Python `int()` on a stripped text: optional sign then decimal digits
(`ValueError` modelled as `none`). -/
def pyIntParse (cs : List Char) : Option Int :=
  let core : List Char → Option Nat := fun ds =>
    if ds.isEmpty || !ds.all Char.isDigit then Option.none else some (digitsToNat ds)
  match cs with
  | '-' :: ds => (core ds).map (fun n => -(n : Int))
  | '+' :: ds => (core ds).map (fun n => (n : Int))
  | ds => (core ds).map (fun n => (n : Int))

/-- One line of `SSEDecoder._parse_event` (`sse.py` lines 88–117): `event:`
takes the text after the first colon, stripped; `data:` drops the prefix and
at most one leading space, accumulating parts; `id:` drops the prefix and at
most one leading space; `retry:` parses an integer (invalid → ignored);
comment lines and unknown field names are ignored. -/
def parseFieldLine (acc : ParseAcc) (line : List Char) : ParseAcc :=
  if line.isEmpty then acc
  else if "event:".data.isPrefixOf line then
    { acc with evType := some (String.mk (pyStripChars (line.drop 6))) }
  else if "data:".data.isPrefixOf line then
    let part := line.drop 5
    let part := if part.head? = some ' ' then part.drop 1 else part
    { acc with dataParts := acc.dataParts ++ [part] }
  else if "id:".data.isPrefixOf line then
    let val := line.drop 3
    let val := if val.head? = some ' ' then val.drop 1 else val
    { acc with evId := some (String.mk val) }
  else if "retry:".data.isPrefixOf line then
    let val := line.drop 6
    let val := if val.head? = some ' ' then val.drop 1 else val
    { acc with retry := pyIntParse (pyStripChars val) }
  else acc

/-- `SSEDecoder._parse_event` (`sse.py` lines 82–124): fold the field lines,
join the data parts with newlines, and build the event (the sequence index
is attached by the caller). -/
def parseEventLines (lines : List (List Char)) (idx : Nat) : SSEEvent :=
  let acc := lines.foldl parseFieldLine ⟨Option.none, [], Option.none, Option.none⟩
  ⟨acc.evType, String.mk (joinSep ['\n'] acc.dataParts), acc.evId, acc.retry, idx⟩

/-- Trailing `\r`/`\n` stripping of a completed line
(`line.rstrip(b"\r\n")`). -/
def rstripCRLF (l : List Char) : List Char :=
  (l.reverse.dropWhile (fun c => c = '\r' || c = '\n')).reverse

/-- The body of `SSEDecoder.feed`'s `while` loop for one completed line
(`sse.py` lines 136–147): a blank line emits the pending event, if any; a
non-blank line is accumulated. -/
def decoderLine (st : DecoderState) (line : List Char) : DecoderState × Option SSEEvent :=
  let stripped := rstripCRLF line
  if stripped.isEmpty then
    match st.eventLines with
    | [] => (st, Option.none)
    | ls => (⟨st.buffer, [], st.seq + 1⟩, some (parseEventLines ls (st.seq + 1)))
  else (⟨st.buffer, st.eventLines ++ [stripped], st.seq⟩, Option.none)

/-- Split a buffer into the completed (`\n`-terminated) lines, without their
terminators, and the unterminated remainder. -/
def splitCompleteLines : List Char → List (List Char) × List Char
  | [] => ([], [])
  | c :: cs =>
    if c = '\n' then
      let p := splitCompleteLines cs
      ([] :: p.1, p.2)
    else
      match splitCompleteLines cs with
      | ([], r) => ([], c :: r)
      | (l :: ls, r) => ((c :: l) :: ls, r)

/-- One completed line folded through `decoderLine`, accumulating emitted
events. -/
def sseFeedStep (acc : DecoderState × List SSEEvent) (l : List Char) :
    DecoderState × List SSEEvent :=
  let q := decoderLine acc.1 l
  (q.1, acc.2 ++ q.2.toList)

/-- `SSEDecoder.feed` (`sse.py` lines 126–148): an empty chunk yields
nothing; otherwise the chunk extends the buffer, every completed line is
processed in order, and the unterminated tail is retained. -/
def sseFeed (st : DecoderState) (chunk : List Char) : DecoderState × List SSEEvent :=
  if chunk.isEmpty then (st, [])
  else
    let p := splitCompleteLines (st.buffer ++ chunk)
    let r := p.1.foldl sseFeedStep (⟨[], st.eventLines, st.seq⟩, [])
    (⟨p.2, r.1.eventLines, r.1.seq⟩, r.2)

/-- `SSEDecoder.end_of_input` (`sse.py` lines 150–158): flush a trailing
event accumulated without a final blank line. -/
def sseEndOfInput (st : DecoderState) : DecoderState × List SSEEvent :=
  match st.eventLines with
  | [] => (st, [])
  | ls => (⟨st.buffer, [], st.seq + 1⟩, [parseEventLines ls (st.seq + 1)])

/-- `sse_to_events` (`sse.py` lines 161–168): feed every chunk, then flush. -/
def sseToEvents (chunks : List (List Char)) : List SSEEvent :=
  let r := chunks.foldl (fun (acc : DecoderState × List SSEEvent) ch =>
    let q := sseFeed acc.1 ch
    (q.1, acc.2 ++ q.2)) (decoderInit, [])
  r.2 ++ (sseEndOfInput r.1).2

/-! ### The encoder -/

/-- `encode_sse_data` (`sse.py` lines 205–231): optional `id:`/`event:`
lines, each `splitlines` line of the data as its own `data:` line (a single
`data:` line with no payload for empty data), and a blank terminator
line. -/
def encodeSSEData (data : String) (event : Option String) (id : Option String) : List Char :=
  (match id with
   | some i => "id: ".data ++ i.data ++ ['\n']
   | Option.none => [])
  ++ (match event with
      | some e => "event: ".data ++ e.data ++ ['\n']
      | Option.none => [])
  ++ (if data == "" then "data:".data ++ ['\n']
      else (pySplitlines data.data).flatMap (fun l => "data: ".data ++ l ++ ['\n']))
  ++ ['\n']

/-- `encode_sse_json` (`sse.py` lines 234–239): compact JSON serialization
wrapped as one SSE frame. -/
def encodeSSEJson (obj : PyVal) (event : Option String) (id : Option String) : List Char :=
  encodeSSEData (jsonDumpsCompact obj) event id

/-! ## `ResponseAdapter` (`app/azure/response_adapter.py`)

The per-stream state machine translating provider SSE events into Chat
Completions chunks.  The stream id (`chatcmpl-` + 24 random alphanumerics)
and the echoed model are parameters (`_create_chat_completion_id` is random,
`adapter.inbound_model` is per-request state); the `created` wall-clock
timestamp and the constant `object` field are outside the model. -/

/-- Per-stream mutable state: the three flags `_started_thinking`,
`_thinking`, `_called_function`, reset at stream start
(`response_adapter.py` lines 224–227), and `adapterOk` — whether
`self.adapter` still holds the `AzureAdapter` set at construction
(`response_adapter.py` line 32).  An event named `_init__` derives the
handler name `__init__` and its dispatch calls
`self.__init__(ev.json)`, which reassigns `self.adapter` to the event's
JSON payload; from then on every `_build_completion_chunk` call raises
`AttributeError` at `self.adapter.inbound_model`. -/
structure StreamState where
  startedThinking : Bool
  thinking : Bool
  calledFunction : Bool
  adapterOk : Bool

/-- The stream-start state: all flags false, the adapter intact. -/
def streamInit : StreamState := ⟨false, false, false, true⟩

/-- The delta dict of a chat-completion chunk, in the exact shapes built by
the source:

* `empty` — `{}` (the terminal chunk's delta);
* `content t` — `{"role": "assistant", "content": t}`;
* `fullToolCall cid name args` — `{"role": "assistant", "content": None,
  "tool_calls": [{"index": 0, "id": cid, "type": "function",
  "function": {"name": name, "arguments": args}}]}`;
* `argsToolCall args` — `{"tool_calls": [{"index": 0,
  "function": {"arguments": args}}]}`. -/
inductive ChunkDelta where
  | empty
  | content (text : PyVal)
  | fullToolCall (callId name arguments : PyVal)
  | argsToolCall (arguments : PyVal)

/-- One chat-completion chunk as built by
`ResponseAdapter._build_completion_chunk` (`response_adapter.py` lines
66–85): the per-stream id, the echoed inbound model, the delta and the
finish reason (`None` on every non-terminal chunk). -/
structure Chunk where
  id : String
  model : PyVal
  delta : ChunkDelta
  finish : Option String

/-- `ResponseAdapter._build_completion_chunk`. -/
def buildCompletionChunk (cid : String) (model : PyVal) (delta : ChunkDelta)
    (finish : Option String) : Chunk :=
  ⟨cid, model, delta, finish⟩

/-- Python `x or ""` (used for `call_id or ""`, `name or ""`,
`arguments or ""`). -/
def orEmptyStr (v : PyVal) : PyVal :=
  if v.truthy then v else .str ""

/-- The closing `</think>\n\n` content chunk. -/
def closingThinkChunk (cid : String) (model : PyVal) : Chunk :=
  buildCompletionChunk cid model (.content (.str "</think>\n\n")) Option.none

/-- `ResponseAdapter._output_item__added` (`response_adapter.py` lines
88–132): a non-dict payload yields nothing; `item.type == "reasoning"` sets
`_started_thinking`; `item.type == "function_call"` closes an open think
block, emits the full tool-call chunk and sets `_called_function`; a present
non-dict `item` value raises (`.get` on a non-dict). -/
def hOutputItemAdded (cid : String) (model : PyVal) (st : StreamState) (obj : PyVal) :
    Except String (List Chunk × StreamState) :=
  match obj with
  | PyVal.dict _ =>
    match obj.getD "item" (PyVal.dict []) with
    | PyVal.dict ifs =>
      let item := PyVal.dict ifs
      let itemType := item.get "type"
      if itemType.isStr "reasoning" then
        .ok ([], ⟨true, st.thinking, st.calledFunction, st.adapterOk⟩)
      else if itemType.isStr "function_call" then
        let closing := if st.thinking then [closingThinkChunk cid model] else []
        .ok (closing ++ [buildCompletionChunk cid model
              (.fullToolCall (orEmptyStr (item.get "call_id")) (orEmptyStr (item.get "name"))
                (orEmptyStr (item.get "arguments"))) Option.none],
             ⟨st.startedThinking, false, true, st.adapterOk⟩)
      else .ok ([], st)
    | _ => .error "AttributeError"
  | _ => .ok ([], st)

/-- `ResponseAdapter._function_call_arguments__delta` (`response_adapter.py`
lines 134–156): close an open think block, then emit the incremental
arguments fragment. -/
def hFunctionCallArgumentsDelta (cid : String) (model : PyVal) (st : StreamState)
    (obj : PyVal) : Except String (List Chunk × StreamState) :=
  let closing := if st.thinking then [closingThinkChunk cid model] else []
  let argsd := match obj with
    | PyVal.dict _ => obj.getD "delta" (.str "")
    | _ => PyVal.str ""
  .ok (closing ++ [buildCompletionChunk cid model (.argsToolCall argsd) Option.none],
       ⟨st.startedThinking, false, st.calledFunction, st.adapterOk⟩)

/-- `ResponseAdapter._output_item__done` (`response_adapter.py` lines
158–163): no-op. -/
def hOutputItemDone (st : StreamState) (_obj : PyVal) :
    Except String (List Chunk × StreamState) :=
  .ok ([], st)

/-- `ResponseAdapter._reasoning_summary_text__delta` (`response_adapter.py`
lines 165–186): on the first delta after `_started_thinking`, open the think
block; then emit the text fragment. -/
def hReasoningSummaryTextDelta (cid : String) (model : PyVal) (st : StreamState)
    (obj : PyVal) : Except String (List Chunk × StreamState) :=
  let opening := if st.startedThinking
    then [buildCompletionChunk cid model (.content (.str "<think>\n\n")) Option.none]
    else []
  let st' := if st.startedThinking then ⟨false, true, st.calledFunction, st.adapterOk⟩ else st
  let textd := match obj with
    | PyVal.dict _ => obj.getD "delta" (.str "")
    | _ => PyVal.str ""
  .ok (opening ++ [buildCompletionChunk cid model (.content textd) Option.none], st')

/-- `ResponseAdapter._reasoning_summary_text__done` (`response_adapter.py`
lines 188–194): emit a `"\n\n"` content delta; the `_thinking` flag is left
set. -/
def hReasoningSummaryTextDone (cid : String) (model : PyVal) (st : StreamState)
    (_obj : PyVal) : Except String (List Chunk × StreamState) :=
  .ok ([buildCompletionChunk cid model (.content (.str "\n\n")) Option.none], st)

/-- `ResponseAdapter._output_text__delta` (`response_adapter.py` lines
196–216): close an open think block, then emit the text fragment. -/
def hOutputTextDelta (cid : String) (model : PyVal) (st : StreamState)
    (obj : PyVal) : Except String (List Chunk × StreamState) :=
  let closing := if st.thinking then [closingThinkChunk cid model] else []
  let textd := match obj with
    | PyVal.dict _ => obj.getD "delta" (.str "")
    | _ => PyVal.str ""
  .ok (closing ++ [buildCompletionChunk cid model (.content textd) Option.none],
       ⟨st.startedThinking, false, st.calledFunction, st.adapterOk⟩)

/-- The six event handlers of the translator. -/
inductive HandlerId where
  | outputItemAdded
  | functionCallArgumentsDelta
  | outputItemDone
  | reasoningSummaryTextDelta
  | reasoningSummaryTextDone
  | outputTextDelta
  deriving DecidableEq

/-- What `getattr(self, handler_name, None)` can find on a `ResponseAdapter`
instance (`response_adapter.py` line 240): one of the six handlers, a
non-handler attribute defined by the class or its `generate`
initialisation, an attribute of dunder shape, or nothing:

* `alwaysTruthyBad` — a method whose signature rejects the one positional
  argument (`_create_chat_completion_id`, `_filter_response_headers`,
  `_build_completion_chunk`): truthy, so it is called, and calling raises
  `TypeError`;
* `streamIdAttr` — `_chat_completion_id`, the stream-id string: truthy (and
  hence called, raising `TypeError`) whenever the id is nonempty;
* `flagStarted`/`flagThinking`/`flagCalled` — the three per-stream `bool`
  attributes: skipped by `if not handler` when falsy, called (raising
  `TypeError`) when truthy;
* `initMethod` — `__init__`, reached by an event named `_init__`: a bound
  method taking exactly one positional argument, so
  `self.__init__(ev.json)` succeeds, reassigns `self.adapter` to the
  event's JSON payload and returns `None` (no chunks, processing
  continues with the adapter corrupted);
* `objectDunder` — any other name of dunder shape (leading `__`): the
  class docstring, `__module__`, `__dict__`, the inherited `object`
  methods, and so on.  Their behaviour under `handler(ev.json)` is varied
  (most raise `TypeError` when called or iterated, `__weakref__` is falsy
  and skipped, `__delattr__` and `__format__` depend on the payload) and
  the inherited set is interpreter-version dependent, so the model does
  not characterise it: the dispatch arm for this view is a placeholder
  (an aborting `TypeError`, the most common outcome) and every theorem
  quantifying over event streams excludes these names by hypothesis.
  Names of dunder shape that `object` does not define resolve to nothing
  in Python; mapping them here too only widens the exclusions. -/
inductive AttrView where
  | handler (h : HandlerId)
  | alwaysTruthyBad
  | streamIdAttr
  | flagStarted
  | flagThinking
  | flagCalled
  | initMethod
  | objectDunder
  | missing
  deriving DecidableEq

/-- The attribute table of `ResponseAdapter`: names of dunder shape first
(`__init__` is the one with modelled behaviour), then the class-defined
attributes, else nothing. -/
def adapterAttr (name : String) : AttrView :=
  if "__".data.isPrefixOf name.data then
    (if name = "__init__" then .initMethod else .objectDunder)
  else if name = "_output_item__added" then .handler .outputItemAdded
  else if name = "_function_call_arguments__delta" then .handler .functionCallArgumentsDelta
  else if name = "_output_item__done" then .handler .outputItemDone
  else if name = "_reasoning_summary_text__delta" then .handler .reasoningSummaryTextDelta
  else if name = "_reasoning_summary_text__done" then .handler .reasoningSummaryTextDone
  else if name = "_output_text__delta" then .handler .outputTextDelta
  else if name = "_chat_completion_id" then .streamIdAttr
  else if name = "_create_chat_completion_id" then .alwaysTruthyBad
  else if name = "_filter_response_headers" then .alwaysTruthyBad
  else if name = "_build_completion_chunk" then .alwaysTruthyBad
  else if name = "_started_thinking" then .flagStarted
  else if name = "_thinking" then .flagThinking
  else if name = "_called_function" then .flagCalled
  else .missing

/-- The handler-name derivation of the dispatch loop (`response_adapter.py`
lines 237–239): `"_" + (ev.event or "").replace("response.", "")
.replace(".", "__")` (every occurrence replaced, as Python `str.replace`
does). -/
def handlerName (ev : SSEEvent) : String :=
  "_" ++ String.mk (replaceAll (replaceAll (ev.event.getD "").data "response.".data [])
    ['.'] "__".data)

/-- Run one recognized handler on `ev.json` (a missing/invalid JSON payload
arrives as `None`). -/
def runHandler (h : HandlerId) (cid : String) (model : PyVal) (st : StreamState)
    (obj : PyVal) : Except String (List Chunk × StreamState) :=
  match h with
  | .outputItemAdded => hOutputItemAdded cid model st obj
  | .functionCallArgumentsDelta => hFunctionCallArgumentsDelta cid model st obj
  | .outputItemDone => hOutputItemDone st obj
  | .reasoningSummaryTextDelta => hReasoningSummaryTextDelta cid model st obj
  | .reasoningSummaryTextDone => hReasoningSummaryTextDone cid model st obj
  | .outputTextDelta => hOutputTextDelta cid model st obj

/-- One iteration of the dispatch loop of `gen_dicts`
(`response_adapter.py` lines 231–246): the `[DONE]` sentinel is consumed;
otherwise the handler name is derived from the event name and looked up;
a missing attribute (or a falsy flag attribute) is skipped; a truthy
non-handler attribute is called and raises; `__init__` reassigns
`self.adapter` and continues; a handler contributes its chunks and the
updated state — unless the adapter was corrupted, in which case the
handler's first `_build_completion_chunk` call raises `AttributeError`
before any of its state mutations (every handler builds its first chunk
before mutating flags, and a handler that emits no chunk never builds). -/
def streamStep (cid : String) (model : PyVal) (st : StreamState) (ev : SSEEvent) :
    Except String (List Chunk × StreamState) :=
  if evIsDone ev then .ok ([], st)
  else
    match adapterAttr (handlerName ev) with
    | .handler h =>
      match runHandler h cid model st ((evJson ev).getD PyVal.none) with
      | .ok (cs, st') =>
        if st.adapterOk then .ok (cs, st')
        else if cs.isEmpty then .ok (cs, st')
        else .error "AttributeError"
      | .error e => .error e
    | .alwaysTruthyBad => .error "TypeError"
    | .streamIdAttr => if cid = "" then .ok ([], st) else .error "TypeError"
    | .flagStarted => if st.startedThinking then .error "TypeError" else .ok ([], st)
    | .flagThinking => if st.thinking then .error "TypeError" else .ok ([], st)
    | .flagCalled => if st.calledFunction then .error "TypeError" else .ok ([], st)
    | .initMethod =>
      .ok ([], ⟨st.startedThinking, st.thinking, st.calledFunction, false⟩)
    | .objectDunder => .error "TypeError"
    | .missing => .ok ([], st)

/-- The event loop of `gen_dicts` (`response_adapter.py` lines 230–246):
chunks yielded so far, the state reached, and whether a handler raised
(aborting the iteration there). -/
def genDictsLoop (cid : String) (model : PyVal) :
    StreamState → List SSEEvent → List Chunk × StreamState × Bool
  | st, [] => ([], st, false)
  | st, ev :: rest =>
    match streamStep cid model st ev with
    | .ok (cs, st') =>
      let r := genDictsLoop cid model st' rest
      (cs ++ r.1, r.2.1, r.2.2)
    | .error _ => ([], st, true)

/-- `gen_dicts` (`response_adapter.py` lines 229–252) over a provider event
stream: the events delivered by the source iterator, plus whether the source
iterator itself ended abnormally after them.  The `finally` block appends
one terminal chunk — finish_reason `tool_calls` if `_called_function` else
`stop` — whether the loop completed, a handler raised, or the source
raised; but when an `_init__` event has corrupted `self.adapter`, the
terminal `_build_completion_chunk` itself raises `AttributeError` inside
the `finally` and no terminal chunk is emitted.  The returned flag records
whether an exception escaped. -/
def adaptChunks (cid : String) (model : PyVal) (events : List SSEEvent)
    (sourceErr : Bool) : List Chunk × Bool :=
  let r := genDictsLoop cid model streamInit events
  if r.2.1.adapterOk then
    (r.1 ++ [buildCompletionChunk cid model .empty
        (some (if r.2.1.calledFunction then "tool_calls" else "stop"))],
     r.2.2 || sourceErr)
  else (r.1, true)

/-- Whether a chunk is the full tool-call chunk emitted for a
`function_call` output item. -/
def Chunk.isFullToolCall (c : Chunk) : Bool :=
  match c.delta with
  | .fullToolCall _ _ _ => true
  | _ => false

/-- The content fragments carried by a chunk list, in order. -/
def contentFrags (cs : List Chunk) : List PyVal :=
  cs.filterMap (fun c => match c.delta with
    | .content t => some t
    | _ => Option.none)

/-! ## Theorems

One theorem (plus, where needed, a counterexample and a witness) per claim
of the specification. -/

/-! ### C8 — content rendering -/

/-- The per-part rendering rule as the claim words it: a part whose type is
`text`/`input_text` contributes its text field; otherwise a part with a
string `content` sub-field contributes that string; otherwise the part is
stringified — for every part, dict or not. -/
def renderPartClaim (p : PyVal) : String :=
  if (p.get "type").isStr "text" || (p.get "type").isStr "input_text" then
    pyStr (p.getD "text" (.str ""))
  else
    match p.get "content" with
    | .str s => s
    | _ => pyStr p

/-- The claim's content-rendering function, built from the claim's words:
null → `""`; string → itself; list → newline-join of the per-part renderings
with empty renderings dropped; anything else → its JSON serialization. -/
def renderContentClaim : PyVal → String
  | .none => ""
  | .str s => s
  | .list xs => "\n".intercalate ((xs.map renderPartClaim).filter (fun s => s ≠ ""))
  | v => jsonDumpsDefault v

/-- The amended per-part rule: as the claim, except that a dict part
matching neither the `text`/`input_text` rule nor the string-`content` rule
contributes nothing (only non-dict parts are stringified). -/
def renderPartAmended (p : PyVal) : Option String :=
  match p with
  | PyVal.dict _ =>
    if ((p.get "type").isStr "text" || (p.get "type").isStr "input_text")
        && p.hasKey "text" then
      some (pyStr (p.getD "text" (.str "")))
    else
      match p.get "content" with
      | .str s => some s
      | _ => Option.none
  | _ => some (pyStr p)

/-- The amended content-rendering function. -/
def renderContentAmended : PyVal → String
  | .none => ""
  | .str s => s
  | .list xs => "\n".intercalate ((xs.filterMap renderPartAmended).filter (fun s => s ≠ ""))
  | v => jsonDumpsDefault v

/-- The part loop agrees with the amended per-part rule. -/
theorem contentParts_eq_filterMap (xs : List PyVal) :
    contentParts xs = xs.filterMap renderPartAmended := by
  induction xs with
  | nil => rfl
  | cons p rest ih =>
    cases p with
    | dict fs =>
      by_cases h1 : (((PyVal.dict fs).get "type").isStr "text"
          || ((PyVal.dict fs).get "type").isStr "input_text")
          && (PyVal.dict fs).hasKey "text"
      · simp [contentParts, renderPartAmended, h1, List.filterMap_cons, ih]
      · simp only [contentParts, renderPartAmended, h1]
        rcases h2 : (PyVal.dict fs).get "content" with _ | b | n | s | l | d <;>
          simp_all [contentParts, renderPartAmended, List.filterMap_cons, ih,
            PyVal.hasKey, PyVal.get, Bool.and_eq_true] <;>
          split_ifs <;> simp_all
    | none => simp [contentParts, renderPartAmended, List.filterMap_cons, ih]
    | bool b => simp [contentParts, renderPartAmended, List.filterMap_cons, ih]
    | int n => simp [contentParts, renderPartAmended, List.filterMap_cons, ih]
    | str s => simp [contentParts, renderPartAmended, List.filterMap_cons, ih]
    | list l => simp [contentParts, renderPartAmended, List.filterMap_cons, ih]

/-- C8 (corrected, counterexample): for the one-part list whose part is the
dict `{"foo": "bar"}` — matching neither the `text`/`input_text` rule nor
the string-`content` rule — the code renders the whole content to `""`
(the part contributes nothing), while the claim's rule stringifies the part
and so renders `"\x7b'foo': 'bar'\x7d"`. -/
theorem contentToText_claim_counterexample :
    contentToText (PyVal.list [PyVal.dict [("foo", PyVal.str "bar")]]) = "" ∧
    renderContentClaim (PyVal.list [PyVal.dict [("foo", PyVal.str "bar")]]) = "\x7b'foo': 'bar'\x7d" ∧
    contentToText (PyVal.list [PyVal.dict [("foo", PyVal.str "bar")]]) ≠
      renderContentClaim (PyVal.list [PyVal.dict [("foo", PyVal.str "bar")]]) := by
  exact ⟨rfl, rfl, by decide⟩

/-- C8 (amended): the content-rendering function agrees everywhere with the
amended rule — null → `""`; a string → itself; a list → the newline-join of
its rendered parts where a `text`/`input_text` part with a `text` key
contributes its stringified text field, otherwise a part with a string
`content` sub-field contributes that string, otherwise a dict part is
dropped and a non-dict part is stringified, with empty renderings dropped
before joining; any other value → its JSON serialization. -/
theorem contentToText_spec (v : PyVal) :
    contentToText v = renderContentAmended v := by
  cases v with
  | list xs => simp [contentToText, renderContentAmended, contentParts_eq_filterMap]
  | none => rfl
  | bool b => rfl
  | int n => rfl
  | str s => rfl
  | dict fs => rfl

/-! ### C3 — reasoning-effort validation -/

/-- Whether the orchestrator issued the upstream HTTP call. -/
def ForwardOutcome.madeUpstreamCall : ForwardOutcome → Bool
  | .upstreamCall _ => true
  | .failedNoCall _ => false

/-- The claim's effort derivation, from its words: strip a `gpt-` prefix
(once, and only when it is a prefix) and lower-case the remainder. -/
def stripGptPrefixLower (model : String) : String :=
  pyLower (String.mk
    (if "gpt-".data.isPrefixOf model.data then model.data.drop 4 else model.data))

/-- When the outbound body was built, the reasoning-effort derivation on the
inbound model succeeded. -/
theorem buildResponsesBody_ok_effort {p : PyVal} {s : Settings}
    {b : List (String × PyVal)} (h : buildResponsesBody p s = .ok b) :
    ∃ model eff, p.get "model" = PyVal.str model ∧ deriveReasoningEffort model = .ok eff := by
  simp only [buildResponsesBody] at h
  cases h1 : (match (if (p.get "messages").truthy then p.get "messages" else PyVal.list []) with
    | PyVal.list ms => messagesToResponsesInput ms
    | _ => .ok (Option.none, Option.none) :
      Except String (Option (List PyVal) × Option String)) with
  | error e => rw [h1] at h; simp [Bind.bind, Except.bind] at h
  | ok mapped =>
    rw [h1] at h
    cases h2 : transformToolChoice (p.get "tool_choice") with
    | error e => rw [h2] at h; simp [Bind.bind, Except.bind] at h
    | ok mtc =>
      rw [h2] at h
      cases h3 : (match p.get "model" with
        | PyVal.str s' => deriveReasoningEffort s'
        | _ => .error "AttributeError" : Except String String) with
      | error e => rw [h3] at h; simp [Bind.bind, Except.bind] at h
      | ok eff =>
        cases h4 : p.get "model" with
        | str model => exact ⟨model, eff, rfl, by simpa [h4] using h3⟩
        | none => simp [h4] at h3
        | bool b2 => simp [h4] at h3
        | int n => simp [h4] at h3
        | list l => simp [h4] at h3
        | dict d => simp [h4] at h3

/-- A successful effort derivation means the code-derived effort is in the
allowed set. -/
theorem deriveReasoningEffort_ok_mem {m e : String} (h : deriveReasoningEffort m = .ok e) :
    codeDerivedEffort m ∈ (["high", "medium", "low"] : List String) := by
  unfold deriveReasoningEffort at h
  by_cases hc : (codeDerivedEffort m == "high" || codeDerivedEffort m == "medium"
      || codeDerivedEffort m == "low") = true
  · simp only [Bool.or_eq_true, beq_iff_eq] at hc
    simp only [List.mem_cons, List.mem_singleton]
    tauto
  · simp [hc] at h

/-- C3 (corrected, counterexample): the model string `gpt-gpt-high`.  The
claim's own derivation (strip one `gpt-` prefix, lower-case) yields
`gpt-high`, which is not in `{high, medium, low}` — and the string does not
match `gpt-<effort>` with effort in that set — so the claim predicts a
validation failure; but the code removes *every* occurrence of `gpt-`,
derives `high`, and the translation succeeds and reaches the upstream
call. -/
theorem modelValidation_claim_counterexample :
    deriveReasoningEffort "gpt-gpt-high" = .ok "high" ∧
    stripGptPrefixLower "gpt-gpt-high" = "gpt-high" ∧
    "gpt-high" ∉ (["high", "medium", "low"] : List String) ∧
    (forwardRequest (PyVal.dict [("model", PyVal.str "gpt-gpt-high")])
      ⟨"my-deployment", "auto", "auto"⟩).madeUpstreamCall = true := by
  exact ⟨rfl, by decide, by decide, rfl⟩

/-- C3 (amended): the translator derives the effort by removing every
occurrence of `gpt-` from the inbound model string and lower-casing;
translation reaches the upstream call only when that result is exactly one
of `high`, `medium`, `low` (so `gpt-high` works, but so do e.g. `high` and
`gpt-gpt-high`), and for any model string whose derived effort is not in
that set the translation fails before any upstream call is made. -/
theorem modelValidation_spec (payload : PyVal) (settings : Settings) (model : String)
    (hm : payload.get "model" = PyVal.str model) :
    ((forwardRequest payload settings).madeUpstreamCall = true →
      codeDerivedEffort model ∈ (["high", "medium", "low"] : List String)) ∧
    (codeDerivedEffort model ∉ (["high", "medium", "low"] : List String) →
      (forwardRequest payload settings).madeUpstreamCall = false) := by
  have key : (forwardRequest payload settings).madeUpstreamCall = true →
      codeDerivedEffort model ∈ (["high", "medium", "low"] : List String) := by
    intro h
    unfold forwardRequest at h
    cases hb : buildResponsesBody payload settings with
    | error e => rw [hb] at h; simp [ForwardOutcome.madeUpstreamCall] at h
    | ok body =>
      obtain ⟨m2, eff, hm2, heff⟩ := buildResponsesBody_ok_effort hb
      rw [hm] at hm2
      injection hm2 with hmm
      subst hmm
      exact deriveReasoningEffort_ok_mem heff
  refine ⟨key, fun hnot => ?_⟩
  cases hval : (forwardRequest payload settings).madeUpstreamCall with
  | false => rfl
  | true => exact absurd (key hval) hnot

/-- C3 (witness): `gpt-ultra` derives effort `ultra`, which is rejected, so
no upstream call is made; and a successful call on `gpt-high` has its
derived effort in the set. -/
theorem modelValidation_spec_witness :
    (forwardRequest (PyVal.dict [("model", PyVal.str "gpt-ultra")])
      ⟨"my-deployment", "auto", "auto"⟩).madeUpstreamCall = false ∧
    codeDerivedEffort "gpt-high" ∈ (["high", "medium", "low"] : List String) :=
  ⟨(modelValidation_spec (PyVal.dict [("model", PyVal.str "gpt-ultra")])
      ⟨"my-deployment", "auto", "auto"⟩ "gpt-ultra" rfl).2 (by decide),
   (modelValidation_spec (PyVal.dict [("model", PyVal.str "gpt-high")])
      ⟨"my-deployment", "auto", "auto"⟩ "gpt-high" rfl).1 rfl⟩

/-! ### C4 — call-id normalization -/

/-- Lowercase hexadecimal characters. -/
def isLowerHexDigit (c : Char) : Bool :=
  ('0' ≤ c && c ≤ '9') || ('a' ≤ c && c ≤ 'f')

/-- `hexDigitChar` of a nibble is a lowercase hex character. -/
theorem hexDigitChar_mod16_lowerHex (x : Nat) :
    isLowerHexDigit (hexDigitChar (x % 16)) = true := by
  have h : x % 16 < 16 := Nat.mod_lt _ (by decide)
  set m := x % 16 with hm
  interval_cases m <;> decide

/-- Every character of a `word32Hex` rendering is lowercase hex. -/
theorem word32Hex_lowerHex {w : Nat} : ∀ c ∈ word32Hex w, isLowerHexDigit c = true := by
  intro c hc
  simp only [word32Hex, List.mem_map, List.mem_range] at hc
  obtain ⟨i, _, rfl⟩ := hc
  exact hexDigitChar_mod16_lowerHex _

/-- The hex digest has 64 characters. -/
theorem sha256Hex_length (s : String) : (sha256Hex s).length = 64 := by
  simp [sha256Hex, sha256Words, String.length, word32Hex, List.flatten]

/-- Every character of the hex digest is lowercase hex. -/
theorem sha256Hex_lowerHex (s : String) :
    ∀ c ∈ (sha256Hex s).data, isLowerHexDigit c = true := by
  intro c hc
  simp only [sha256Hex, sha256Words, List.map_cons, List.map_nil, List.flatten,
    List.append_nil, List.mem_append] at hc
  rcases hc with h | h | h | h | h | h | h | h <;> exact word32Hex_lowerHex _ h

/-- Lookup distributes over append when the key is absent on the left. -/
theorem lookup_append_of_none {α β : Type} [BEq α] {a : α} {l₁ l₂ : List (α × β)}
    (h : List.lookup a l₁ = Option.none) :
    List.lookup a (l₁ ++ l₂) = List.lookup a l₂ := by
  induction l₁ with
  | nil => rfl
  | cons kv rest ih =>
    obtain ⟨k, v⟩ := kv
    by_cases hk : (a == k) = true
    · simp [List.lookup, hk] at h
    · simp [List.lookup, hk] at h ⊢
      exact ih h

/-- C4: `_normalize_call_id` — an absent (`None`) or empty original is
returned unchanged; an original that is already a key of the map returns its
stored value; otherwise an original of length at most 64 is returned
unchanged with the map untouched; otherwise the 64-character lowercase-hex
SHA-256 digest is stored under the original and returned; and a repeated
call on the same original (against the map the first call produced) returns
the same value. -/
theorem normalizeCallId_spec :
    (∀ m, normalizeCallId PyVal.none m = .ok (PyVal.none, m)) ∧
    (∀ m, normalizeCallId (PyVal.str "") m = .ok (PyVal.str "", m)) ∧
    (∀ s m v, s ≠ "" → List.lookup s m = some v →
      normalizeCallId (PyVal.str s) m = .ok (PyVal.str v, m)) ∧
    (∀ s m, s ≠ "" → s.length ≤ 64 → List.lookup s m = Option.none →
      normalizeCallId (PyVal.str s) m = .ok (PyVal.str s, m)) ∧
    (∀ s m, s.length > 64 → List.lookup s m = Option.none →
      normalizeCallId (PyVal.str s) m =
        .ok (PyVal.str (sha256Hex s), m ++ [(s, sha256Hex s)]) ∧
      (sha256Hex s).length = 64 ∧
      (∀ c ∈ (sha256Hex s).data, isLowerHexDigit c = true)) ∧
    (∀ v m r m', normalizeCallId v m = .ok (r, m') →
      normalizeCallId v m' = .ok (r, m')) := by
  have hne_of_len : ∀ s : String, s.length > 64 → s ≠ "" := by
    intro s hlen hs
    rw [hs] at hlen
    simp [String.length] at hlen
  have htruthy : ∀ s : String, s ≠ "" → (PyVal.str s).truthy = true := by
    intro s hs
    simp [PyVal.truthy, hs]
  refine ⟨fun m => rfl, fun m => rfl, ?_, ?_, ?_, ?_⟩
  · intro s m v hs hv
    by_cases hlen : s.length ≤ 64
    · simp [normalizeCallId, htruthy s hs, hlen, hv]
    · simp [normalizeCallId, htruthy s hs, hlen, hv]
  · intro s m hs hlen hv
    simp [normalizeCallId, htruthy s hs, hlen, hv]
  · intro s m hlen hv
    have hs := hne_of_len s hlen
    refine ⟨?_, sha256Hex_length s, sha256Hex_lowerHex s⟩
    simp [normalizeCallId, htruthy s hs, Nat.not_le.mpr hlen, hv]
  · intro v m r m' h
    cases v with
    | str s =>
      by_cases hs : s = ""
      · subst hs
        simp_all [normalizeCallId, PyVal.truthy]
      · by_cases hlen : s.length ≤ 64
        · have := htruthy s hs
          simp [normalizeCallId, this, hlen] at h ⊢
          obtain ⟨h1, h2⟩ := h
          subst h2
          simp [h1]
        · have ht := htruthy s hs
          cases hv : List.lookup s m with
          | some w =>
            simp [normalizeCallId, ht, hlen, hv] at h
            obtain ⟨h1, h2⟩ := h
            subst h2
            simp [normalizeCallId, ht, hlen, hv, h1]
          | none =>
            simp [normalizeCallId, ht, hlen, hv] at h
            obtain ⟨h1, h2⟩ := h
            subst h2
            have : List.lookup s (m ++ [(s, sha256Hex s)]) = some (sha256Hex s) := by
              rw [lookup_append_of_none hv]
              simp [List.lookup]
            simp [normalizeCallId, ht, hlen, this, h1]
    | none => simp_all [normalizeCallId, PyVal.truthy]
    | bool b =>
      cases b with
      | false => simp_all [normalizeCallId, PyVal.truthy]
      | true => simp [normalizeCallId, PyVal.truthy] at h
    | int n =>
      by_cases hn : n = 0
      · subst hn
        simp_all [normalizeCallId, PyVal.truthy]
      · simp [normalizeCallId, PyVal.truthy, hn] at h
    | list xs =>
      cases xs with
      | nil => simp_all [normalizeCallId, PyVal.truthy]
      | cons a as => simp [normalizeCallId, PyVal.truthy] at h
    | dict fs =>
      cases fs with
      | nil => simp_all [normalizeCallId, PyVal.truthy]
      | cons a as => simp [normalizeCallId, PyVal.truthy] at h

/-- C4 (witness): the clauses of `normalizeCallId_spec` evaluated at
concrete inputs — `None` and a known key pass through, a short unseen id
passes through, a 65-character id hashes and is stored, and a repeated call
is stable. -/
theorem normalizeCallId_spec_witness :
    normalizeCallId PyVal.none [] = .ok (PyVal.none, []) ∧
    normalizeCallId (PyVal.str "ab") [("ab", "cd")] = .ok (PyVal.str "cd", [("ab", "cd")]) ∧
    normalizeCallId (PyVal.str "ab") [] = .ok (PyVal.str "ab", []) ∧
    normalizeCallId
      (PyVal.str "aaaaaaaaaaaaaaaaaaaaaaaaaaaaaaaaaaaaaaaaaaaaaaaaaaaaaaaaaaaaaaaaa") [] =
      .ok (PyVal.str (sha256Hex "aaaaaaaaaaaaaaaaaaaaaaaaaaaaaaaaaaaaaaaaaaaaaaaaaaaaaaaaaaaaaaaaa"),
        [("aaaaaaaaaaaaaaaaaaaaaaaaaaaaaaaaaaaaaaaaaaaaaaaaaaaaaaaaaaaaaaaaa",
          sha256Hex "aaaaaaaaaaaaaaaaaaaaaaaaaaaaaaaaaaaaaaaaaaaaaaaaaaaaaaaaaaaaaaaaa")]) ∧
    normalizeCallId (PyVal.str "ab") [] = .ok (PyVal.str "ab", []) :=
  ⟨normalizeCallId_spec.1 [],
   normalizeCallId_spec.2.2.1 "ab" [("ab", "cd")] "cd" (by decide) rfl,
   normalizeCallId_spec.2.2.2.1 "ab" [] (by decide) (by decide) rfl,
   (normalizeCallId_spec.2.2.2.2.1
     "aaaaaaaaaaaaaaaaaaaaaaaaaaaaaaaaaaaaaaaaaaaaaaaaaaaaaaaaaaaaaaaaa" []
     (by decide) rfl).1,
   normalizeCallId_spec.2.2.2.2.2 (PyVal.str "ab") [] (PyVal.str "ab") []
     (normalizeCallId_spec.2.2.2.1 "ab" [] (by decide) (by decide) rfl)⟩

/-! ### C10 — decoder blank-line behaviour -/

/-- A line strips to empty under `rstrip(b"\r\n")` exactly when all its
characters are `\r` or `\n`. -/
theorem rstripCRLF_eq_nil_iff (l : List Char) :
    rstripCRLF l = [] ↔ ∀ c ∈ l, c = '\r' ∨ c = '\n' := by
  unfold rstripCRLF
  rw [List.reverse_eq_nil_iff, List.dropWhile_eq_nil_iff]
  constructor
  · intro h c hc
    have := h c (List.mem_reverse.mpr hc)
    simp only [Bool.or_eq_true, decide_eq_true_eq] at this
    tauto
  · intro h c hc
    have := h c (List.mem_reverse.mp hc)
    simp only [Bool.or_eq_true, decide_eq_true_eq]
    tauto

/-- Lines and remainder of `splitCompleteLines` only contain characters of
the input. -/
theorem splitCompleteLines_chars (P : Char → Prop) :
    ∀ cs : List Char, (∀ c ∈ cs, P c) →
      (∀ l ∈ (splitCompleteLines cs).1, ∀ c ∈ l, P c) ∧
      (∀ c ∈ (splitCompleteLines cs).2, P c) := by
  intro cs
  induction cs with
  | nil => intro _; simp [splitCompleteLines]
  | cons c cs' ih =>
    intro hcs
    have hc : P c := hcs c (by simp)
    have hrest : ∀ x ∈ cs', P x := fun x hx => hcs x (by simp [hx])
    obtain ⟨ih1, ih2⟩ := ih hrest
    by_cases hnl : c = '\n'
    · simp only [splitCompleteLines, hnl, if_pos rfl]
      refine ⟨?_, ih2⟩
      intro l hl
      rcases List.mem_cons.mp hl with rfl | hl2
      · simp
      · exact ih1 l hl2
    · simp only [splitCompleteLines, if_neg hnl]
      rcases hsplit : splitCompleteLines cs' with ⟨ls, r⟩
      rw [hsplit] at ih1 ih2
      cases ls with
      | nil =>
        refine ⟨by simp, ?_⟩
        intro x hx
        rcases List.mem_cons.mp hx with rfl | hx
        · exact hc
        · exact ih2 x hx
      | cons l ls' =>
        refine ⟨?_, ih2⟩
        intro l2 hl2
        rcases List.mem_cons.mp hl2 with rfl | hl2
        · intro x hx
          rcases List.mem_cons.mp hx with rfl | hx
          · exact hc
          · exact ih1 l (by simp) x hx
        · exact ih1 l2 (by simp [hl2])

/-- Folding only blank lines from a state with no pending lines changes
nothing and emits nothing. -/
theorem foldl_blank_lines (lines : List (List Char)) :
    ∀ (st : DecoderState) (evs : List SSEEvent), st.eventLines = [] →
      (∀ l ∈ lines, rstripCRLF l = []) →
      lines.foldl sseFeedStep (st, evs) = (st, evs) := by
  induction lines with
  | nil => intro st evs _ _; rfl
  | cons l rest ih =>
    intro st evs hst hblank
    have hl : rstripCRLF l = [] := hblank l (by simp)
    have hstep : sseFeedStep (st, evs) l = (st, evs) := by
      simp [sseFeedStep, decoderLine, hl, hst, List.isEmpty_nil]
    rw [List.foldl_cons, hstep]
    exact ih st evs hst (fun x hx => hblank x (by simp [hx]))

/-- C10 (corrected, counterexample): the input `": x\n\n"` — whose only
non-blank line is a comment line, not a field line — makes a fresh decoder
emit exactly one event, and that event is empty: no name, no id, no retry,
empty data. -/
theorem sseDecoder_claim_counterexample :
    sseFeed decoderInit (": x\n\n".data) =
      (⟨[], [], 1⟩, [⟨Option.none, "", Option.none, Option.none, 1⟩]) := rfl

/-- C10 (amended): an event is emitted only when at least one non-blank
line (field, comment or otherwise) has accumulated: a blank line arriving
with no pending lines produces no event and leaves the state unchanged, an
input consisting only of blank lines (`\n`/`\r` characters) yields zero
events from feed and from the end-of-input flush, and the flush emits
nothing when no lines are pending — but an event whose accumulated lines
are all comment lines is emitted with every field empty. -/
theorem sseDecoder_blank_spec :
    (∀ cs : List Char, (∀ c ∈ cs, c = '\n' ∨ c = '\r') → sseToEvents [cs] = []) ∧
    (∀ (st : DecoderState) (line : List Char), st.eventLines = [] →
      rstripCRLF line = [] → decoderLine st line = (st, Option.none)) ∧
    (∀ (st : DecoderState) (line : List Char) (st' : DecoderState) (ev : SSEEvent),
      decoderLine st line = (st', some ev) → st.eventLines ≠ []) ∧
    (∀ st : DecoderState, st.eventLines = [] → sseEndOfInput st = (st, [])) := by
  have blankLine : ∀ (st : DecoderState) (line : List Char), st.eventLines = [] →
      rstripCRLF line = [] → decoderLine st line = (st, Option.none) := by
    intro st line hst hline
    simp [decoderLine, hline, hst]
  have flush : ∀ st : DecoderState, st.eventLines = [] → sseEndOfInput st = (st, []) := by
    intro st hst
    obtain ⟨b, el, q⟩ := st
    simp only at hst
    subst hst
    rfl
  refine ⟨?_, blankLine, ?_, flush⟩
  · intro cs hcs
    by_cases hemp : cs = []
    · subst hemp; rfl
    · have hemp' : cs.isEmpty = false := by simpa using hemp
      have hsplit := splitCompleteLines_chars (fun c => c = '\n' ∨ c = '\r') cs hcs
      have hblank : ∀ l ∈ (splitCompleteLines cs).1, rstripCRLF l = [] := by
        intro l hl
        exact (rstripCRLF_eq_nil_iff l).mpr (fun c hc =>
          match hsplit.1 l hl c hc with
          | Or.inl h => Or.inr h
          | Or.inr h => Or.inl h)
      have hfeed : sseFeed decoderInit cs = (⟨(splitCompleteLines cs).2, [], 0⟩, []) := by
        simp only [sseFeed, hemp', Bool.false_eq_true, if_false, decoderInit,
          List.nil_append]
        rw [foldl_blank_lines (splitCompleteLines cs).1 ⟨[], [], 0⟩ [] rfl hblank]
      unfold sseToEvents
      simp only [List.foldl_cons, List.foldl_nil, hfeed]
      simp [flush ⟨(splitCompleteLines cs).2, [], 0⟩ rfl]
  · intro st line st' ev h hel
    by_cases hline : rstripCRLF line = []
    · rw [blankLine st line hel hline] at h
      simp at h
    · have hne : (rstripCRLF line).isEmpty = false := by simpa using hline
      simp [decoderLine, hne] at h

/-- C10 (witness): the amended clauses at concrete inputs — `"\n\r\n"`
decodes to zero events, a lone `"\r"` line on a fresh state is a no-op, an
emission implies pending lines, and the flush of an empty state is empty. -/
theorem sseDecoder_blank_spec_witness :
    sseToEvents ["\n\r\n".data] = [] ∧
    decoderLine ⟨[], [], 0⟩ ['\r'] = (⟨[], [], 0⟩, Option.none) ∧
    ([['x']] : List (List Char)) ≠ [] ∧
    sseEndOfInput ⟨['a'], [], 3⟩ = (⟨['a'], [], 3⟩, []) :=
  ⟨sseDecoder_blank_spec.1 "\n\r\n".data (by decide),
   sseDecoder_blank_spec.2.1 ⟨[], [], 0⟩ ['\r'] rfl (by decide),
   sseDecoder_blank_spec.2.2.1 ⟨[], [['x']], 0⟩ [] ⟨[], [], 1⟩
     ⟨Option.none, "", Option.none, Option.none, 1⟩ rfl,
   sseDecoder_blank_spec.2.2.2 ⟨['a'], [], 3⟩ rfl⟩

/-! ### C7 — unrecognized event names -/

/-- C7 (corrected, counterexample): the event name `chat_completion_id` is
not a recognized variant, yet its derived handler name collides with the
translator's `_chat_completion_id` attribute — the stream-id string, which
is truthy and not callable — so dispatch raises and aborts the stream: fed
`[chat_completion_id, response.output_text.delta("x")]`, the translator
emits only the terminal chunk and an exception escapes, whereas the text
delta alone yields its content chunk. -/
theorem unknownEvent_claim_counterexample :
    adaptChunks "chatcmpl-test" PyVal.none
      [⟨some "chat_completion_id", "{}", Option.none, Option.none, 1⟩,
       ⟨some "response.output_text.delta", "\x7b\"delta\":\"x\"\x7d", Option.none, Option.none, 2⟩]
      false =
      ([⟨"chatcmpl-test", PyVal.none, .empty, some "stop"⟩], true) ∧
    adaptChunks "chatcmpl-test" PyVal.none
      [⟨some "response.output_text.delta", "\x7b\"delta\":\"x\"\x7d", Option.none, Option.none, 2⟩]
      false =
      ([⟨"chatcmpl-test", PyVal.none, .content (PyVal.str "x"), Option.none⟩,
        ⟨"chatcmpl-test", PyVal.none, .empty, some "stop"⟩], false) :=
  ⟨rfl, rfl⟩

/-- C7 (amended): an event whose derived handler name is not an attribute
of the translator at all — neither class-defined nor inherited, so
`getattr` yields `None` — is a silent per-event no-op: zero chunks, state
unchanged, no error, and processing of subsequent events continues
unaffected.  Event names whose derived handler name does collide with an
attribute behave otherwise: truthy non-callable attributes such as
`_chat_completion_id` (or the inherited `__doc__`) raise `TypeError` and
abort the stream, and `_init__` reaches the constructor, silently
reassigning `self.adapter` (see the C1 counterexample). -/
theorem unknownEvent_spec (cid : String) (model : PyVal) (st : StreamState)
    (ev : SSEEvent) (hdone : evIsDone ev = false)
    (hattr : adapterAttr (handlerName ev) = AttrView.missing) :
    streamStep cid model st ev = .ok ([], st) ∧
    ∀ rest, genDictsLoop cid model st (ev :: rest) = genDictsLoop cid model st rest := by
  have hstep : streamStep cid model st ev = .ok ([], st) := by
    simp [streamStep, hdone, hattr]
  refine ⟨hstep, fun rest => ?_⟩
  simp [genDictsLoop, hstep]

/-- C7 (witness): the unrecognized event name `response.totally_unknown`
maps to no attribute and is a no-op on a fresh stream. -/
theorem unknownEvent_spec_witness :
    streamStep "chatcmpl-w" PyVal.none streamInit
      ⟨some "response.totally_unknown", "{}", Option.none, Option.none, 1⟩ =
      .ok ([], streamInit) :=
  (unknownEvent_spec "chatcmpl-w" PyVal.none streamInit
    ⟨some "response.totally_unknown", "{}", Option.none, Option.none, 1⟩
    (by decide) (by decide)).1

/-! ### C2 — think-block ordering -/

/-- The C2 event sequence: a reasoning output item is added, two summary
text deltas `A` and `B` arrive, the summary text finishes, then an output
text delta `C` arrives. -/
def c2Events : List SSEEvent :=
  [⟨some "response.output_item.added", "\x7b\"item\":\x7b\"type\":\"reasoning\"\x7d\x7d",
     Option.none, Option.none, 1⟩,
   ⟨some "response.reasoning_summary_text.delta", "\x7b\"delta\":\"A\"\x7d",
     Option.none, Option.none, 2⟩,
   ⟨some "response.reasoning_summary_text.delta", "\x7b\"delta\":\"B\"\x7d",
     Option.none, Option.none, 3⟩,
   ⟨some "response.reasoning_summary_text.done", "{}", Option.none, Option.none, 4⟩,
   ⟨some "response.output_text.delta", "\x7b\"delta\":\"C\"\x7d", Option.none, Option.none, 5⟩]

/-- C2: fed the sequence `[output_item.added(reasoning),
summary_text.delta("A"), summary_text.delta("B"), summary_text.done,
output_text.delta("C")]`, a fresh translator emits content fragments
exactly `"<think>\n\n"`, `"A"`, `"B"`, `"\n\n"`, `"</think>\n\n"`, `"C"`
in order; and after the `done` event the `thinking` flag is still set — the
block is closed only by the later `output_text.delta` (whose `"</think>\n\n"`
fragment precedes `"C"`). -/
theorem thinkBlock_ordering :
    contentFrags (adaptChunks "chatcmpl-test" (PyVal.str "gpt-high") c2Events false).1 =
      [PyVal.str "<think>\n\n", PyVal.str "A", PyVal.str "B", PyVal.str "\n\n",
       PyVal.str "</think>\n\n", PyVal.str "C"] ∧
    (genDictsLoop "chatcmpl-test" (PyVal.str "gpt-high") streamInit
      (c2Events.take 4)).2.1.thinking = true :=
  ⟨rfl, rfl⟩

/-! ### C1 — terminal chunk and finish reason -/


/-- The invariant carried chunk-wise by every handler: null finish reasons,
and `_called_function` set exactly when it was already set or a full
tool-call chunk was emitted. -/
def StepInv (st : StreamState) (cs : List Chunk) (st' : StreamState) : Prop :=
  (∀ c ∈ cs, c.finish = Option.none) ∧
  st'.calledFunction = (st.calledFunction || cs.any Chunk.isFullToolCall)

/-- `output_item.added` preserves the invariant. -/
theorem hOutputItemAdded_inv {cid : String} {model obj : PyVal} {st : StreamState}
    {cs : List Chunk} {st' : StreamState}
    (h : hOutputItemAdded cid model st obj = .ok (cs, st')) : StepInv st cs st' := by
  unfold hOutputItemAdded at h
  cases obj with
  | dict fs =>
    cases hitem : (PyVal.dict fs).getD "item" (PyVal.dict []) with
    | dict ifs =>
      rw [hitem] at h
      simp only at h
      by_cases hr : ((PyVal.dict ifs).get "type").isStr "reasoning"
      · simp only [hr, if_true, Except.ok.injEq, Prod.mk.injEq] at h
        obtain ⟨h1, h2⟩ := h
        subst h1; subst h2
        simp [StepInv]
      · by_cases hf : ((PyVal.dict ifs).get "type").isStr "function_call"
        · simp only [hr, hf, Bool.false_eq_true, if_false, if_true,
            Except.ok.injEq, Prod.mk.injEq] at h
          obtain ⟨h1, h2⟩ := h
          subst h1; subst h2
          constructor
          · intro c hc
            rcases List.mem_append.mp hc with hc | hc
            · by_cases ht : st.thinking
              · simp only [ht, if_true, List.mem_singleton] at hc
                simp [hc, closingThinkChunk, buildCompletionChunk]
              · simp [ht] at hc
            · simp only [List.mem_singleton] at hc
              simp [hc, buildCompletionChunk]
          · simp [List.any_append, Chunk.isFullToolCall, buildCompletionChunk]
        · simp only [hr, hf, Bool.false_eq_true, if_false,
            Except.ok.injEq, Prod.mk.injEq] at h
          obtain ⟨h1, h2⟩ := h
          subst h1; subst h2
          simp [StepInv]
    | none => rw [hitem] at h; simp at h
    | bool b => rw [hitem] at h; simp at h
    | int n => rw [hitem] at h; simp at h
    | str s => rw [hitem] at h; simp at h
    | list l => rw [hitem] at h; simp at h
  | none =>
    simp only [Except.ok.injEq, Prod.mk.injEq] at h
    obtain ⟨h1, h2⟩ := h; subst h1; subst h2; simp [StepInv]
  | bool b =>
    simp only [Except.ok.injEq, Prod.mk.injEq] at h
    obtain ⟨h1, h2⟩ := h; subst h1; subst h2; simp [StepInv]
  | int n =>
    simp only [Except.ok.injEq, Prod.mk.injEq] at h
    obtain ⟨h1, h2⟩ := h; subst h1; subst h2; simp [StepInv]
  | str s =>
    simp only [Except.ok.injEq, Prod.mk.injEq] at h
    obtain ⟨h1, h2⟩ := h; subst h1; subst h2; simp [StepInv]
  | list l =>
    simp only [Except.ok.injEq, Prod.mk.injEq] at h
    obtain ⟨h1, h2⟩ := h; subst h1; subst h2; simp [StepInv]

/-- `function_call.arguments.delta` preserves the invariant. -/
theorem hFunctionCallArgumentsDelta_inv {cid : String} {model obj : PyVal}
    {st : StreamState} {cs : List Chunk} {st' : StreamState}
    (h : hFunctionCallArgumentsDelta cid model st obj = .ok (cs, st')) :
    StepInv st cs st' := by
  unfold hFunctionCallArgumentsDelta at h
  simp only [Except.ok.injEq, Prod.mk.injEq] at h
  obtain ⟨h1, h2⟩ := h
  subst h1; subst h2
  constructor
  · intro c hc
    rcases List.mem_append.mp hc with hc | hc
    · by_cases ht : st.thinking
      · simp only [ht, if_true, List.mem_singleton] at hc
        simp [hc, closingThinkChunk, buildCompletionChunk]
      · simp [ht] at hc
    · simp only [List.mem_singleton] at hc
      simp [hc, buildCompletionChunk]
  · by_cases ht : st.thinking <;>
      simp [ht, List.any_append, closingThinkChunk, Chunk.isFullToolCall,
        buildCompletionChunk]

/-- `output_item.done` preserves the invariant. -/
theorem hOutputItemDone_inv {obj : PyVal} {st : StreamState}
    {cs : List Chunk} {st' : StreamState}
    (h : hOutputItemDone st obj = .ok (cs, st')) : StepInv st cs st' := by
  unfold hOutputItemDone at h
  simp only [Except.ok.injEq, Prod.mk.injEq] at h
  obtain ⟨h1, h2⟩ := h
  subst h1; subst h2
  simp [StepInv]

/-- `reasoning.summary_text.delta` preserves the invariant. -/
theorem hReasoningSummaryTextDelta_inv {cid : String} {model obj : PyVal}
    {st : StreamState} {cs : List Chunk} {st' : StreamState}
    (h : hReasoningSummaryTextDelta cid model st obj = .ok (cs, st')) :
    StepInv st cs st' := by
  unfold hReasoningSummaryTextDelta at h
  simp only [Except.ok.injEq, Prod.mk.injEq] at h
  obtain ⟨h1, h2⟩ := h
  subst h1; subst h2
  constructor
  · intro c hc
    rcases List.mem_append.mp hc with hc | hc
    · by_cases hs : st.startedThinking
      · simp only [hs, if_true, List.mem_singleton] at hc
        simp [hc, buildCompletionChunk]
      · simp [hs] at hc
    · simp only [List.mem_singleton] at hc
      simp [hc, buildCompletionChunk]
  · by_cases hs : st.startedThinking <;>
      simp [hs, List.any_append, Chunk.isFullToolCall, buildCompletionChunk]

/-- `reasoning.summary_text.done` preserves the invariant. -/
theorem hReasoningSummaryTextDone_inv {cid : String} {model obj : PyVal}
    {st : StreamState} {cs : List Chunk} {st' : StreamState}
    (h : hReasoningSummaryTextDone cid model st obj = .ok (cs, st')) :
    StepInv st cs st' := by
  unfold hReasoningSummaryTextDone at h
  simp only [Except.ok.injEq, Prod.mk.injEq] at h
  obtain ⟨h1, h2⟩ := h
  subst h1; subst h2
  simp [StepInv, buildCompletionChunk, Chunk.isFullToolCall]

/-- `output_text.delta` preserves the invariant. -/
theorem hOutputTextDelta_inv {cid : String} {model obj : PyVal}
    {st : StreamState} {cs : List Chunk} {st' : StreamState}
    (h : hOutputTextDelta cid model st obj = .ok (cs, st')) : StepInv st cs st' := by
  unfold hOutputTextDelta at h
  simp only [Except.ok.injEq, Prod.mk.injEq] at h
  obtain ⟨h1, h2⟩ := h
  subst h1; subst h2
  constructor
  · intro c hc
    rcases List.mem_append.mp hc with hc | hc
    · by_cases ht : st.thinking
      · simp only [ht, if_true, List.mem_singleton] at hc
        simp [hc, closingThinkChunk, buildCompletionChunk]
      · simp [ht] at hc
    · simp only [List.mem_singleton] at hc
      simp [hc, buildCompletionChunk]
  · by_cases ht : st.thinking <;>
      simp [ht, List.any_append, closingThinkChunk, Chunk.isFullToolCall,
        buildCompletionChunk]

/-- One dispatch step: every emitted chunk has a null finish reason, and the
`_called_function` flag is set exactly when it already was or a full
tool-call chunk was just emitted. -/
theorem streamStep_ok_invariant {cid : String} {model : PyVal} {st : StreamState}
    {ev : SSEEvent} {cs : List Chunk} {st' : StreamState}
    (h : streamStep cid model st ev = .ok (cs, st')) : StepInv st cs st' := by
  unfold streamStep at h
  have triv : ∀ (st2 : StreamState), (Except.ok ([], st2) :
      Except String (List Chunk × StreamState)) = .ok (cs, st') → StepInv st2 cs st' := by
    intro st2 hh
    simp only [Except.ok.injEq, Prod.mk.injEq] at hh
    obtain ⟨h1, h2⟩ := hh
    subst h1; subst h2
    simp [StepInv]
  by_cases hdone : evIsDone ev
  · rw [if_pos hdone] at h
    exact triv st h
  · rw [if_neg hdone] at h
    cases hattr : adapterAttr (handlerName ev) with
    | handler hid =>
      rw [hattr] at h
      cases hrun : runHandler hid cid model st ((evJson ev).getD PyVal.none) with
      | error e => simp [hrun] at h
      | ok p =>
        obtain ⟨cs0, st0⟩ := p
        simp only [hrun] at h
        have hok : cs0 = cs ∧ st0 = st' := by
          by_cases ha : st.adapterOk
          · simpa [ha] using h
          · by_cases hcs : cs0.isEmpty
            · simpa [ha, hcs] using h
            · simp [ha, hcs] at h
        obtain ⟨rfl, rfl⟩ := hok
        simp only [runHandler] at hrun
        cases hid with
        | outputItemAdded => exact hOutputItemAdded_inv hrun
        | functionCallArgumentsDelta => exact hFunctionCallArgumentsDelta_inv hrun
        | outputItemDone => exact hOutputItemDone_inv hrun
        | reasoningSummaryTextDelta => exact hReasoningSummaryTextDelta_inv hrun
        | reasoningSummaryTextDone => exact hReasoningSummaryTextDone_inv hrun
        | outputTextDelta => exact hOutputTextDelta_inv hrun
    | initMethod =>
      rw [hattr] at h
      simp only [Except.ok.injEq, Prod.mk.injEq] at h
      obtain ⟨h1, h2⟩ := h
      subst h1
      subst h2
      simp [StepInv]
    | objectDunder => rw [hattr] at h; simp at h
    | alwaysTruthyBad => rw [hattr] at h; simp at h
    | streamIdAttr =>
      rw [hattr] at h
      by_cases hcid : cid = ""
      · rw [if_pos hcid] at h; exact triv st h
      · rw [if_neg hcid] at h; simp at h
    | flagStarted =>
      rw [hattr] at h
      by_cases hs : st.startedThinking
      · simp [hs] at h
      · simp only [hs, Bool.false_eq_true, if_false] at h; exact triv st h
    | flagThinking =>
      rw [hattr] at h
      by_cases hs : st.thinking
      · simp [hs] at h
      · simp only [hs, Bool.false_eq_true, if_false] at h; exact triv st h
    | flagCalled =>
      rw [hattr] at h
      by_cases hs : st.calledFunction
      · simp [hs] at h
      · simp only [hs, Bool.false_eq_true, if_false] at h; exact triv st h
    | missing => rw [hattr] at h; exact triv st h

/-- The event loop preserves the invariant across the whole stream. -/
theorem genDictsLoop_invariant (cid : String) (model : PyVal) :
    ∀ (evs : List SSEEvent) (st : StreamState),
      (∀ c ∈ (genDictsLoop cid model st evs).1, c.finish = Option.none) ∧
      (genDictsLoop cid model st evs).2.1.calledFunction =
        (st.calledFunction || (genDictsLoop cid model st evs).1.any Chunk.isFullToolCall) := by
  intro evs
  induction evs with
  | nil => intro st; simp [genDictsLoop]
  | cons ev rest ih =>
    intro st
    cases hstep : streamStep cid model st ev with
    | error e => simp [genDictsLoop, hstep]
    | ok p =>
      obtain ⟨cs, st1⟩ := p
      have hinv := streamStep_ok_invariant hstep
      have ihr := ih st1
      constructor
      · intro c hc
        simp only [genDictsLoop, hstep, List.mem_append] at hc
        rcases hc with hc | hc
        · exact hinv.1 c hc
        · exact ihr.1 c hc
      · simp only [genDictsLoop, hstep, List.any_append]
        rw [ihr.2, hinv.2]
        cases st.calledFunction <;> cases cs.any Chunk.isFullToolCall <;>
          cases (genDictsLoop cid model st1 rest).1.any Chunk.isFullToolCall <;> simp

/-- Every handler's successful run leaves `self.adapter` untouched. -/
theorem runHandler_adapterOk {hid : HandlerId} {cid : String} {model obj : PyVal}
    {st : StreamState} {cs : List Chunk} {st' : StreamState}
    (h : runHandler hid cid model st obj = .ok (cs, st')) :
    st'.adapterOk = st.adapterOk := by
  cases hid with
  | outputItemAdded =>
    simp only [runHandler] at h
    unfold hOutputItemAdded at h
    cases obj with
    | dict fs =>
      cases hitem : (PyVal.dict fs).getD "item" (PyVal.dict []) with
      | dict ifs =>
        rw [hitem] at h
        simp only at h
        by_cases hr : ((PyVal.dict ifs).get "type").isStr "reasoning"
        · simp only [hr, if_true, Except.ok.injEq, Prod.mk.injEq] at h
          obtain ⟨h1, h2⟩ := h
          subst h2
          rfl
        · by_cases hf : ((PyVal.dict ifs).get "type").isStr "function_call"
          · simp only [hr, hf, Bool.false_eq_true, if_false, if_true,
              Except.ok.injEq, Prod.mk.injEq] at h
            obtain ⟨h1, h2⟩ := h
            subst h2
            rfl
          · simp only [hr, hf, Bool.false_eq_true, if_false,
              Except.ok.injEq, Prod.mk.injEq] at h
            obtain ⟨h1, h2⟩ := h
            subst h2
            rfl
      | none => rw [hitem] at h; simp at h
      | bool b => rw [hitem] at h; simp at h
      | int n => rw [hitem] at h; simp at h
      | str s2 => rw [hitem] at h; simp at h
      | list l => rw [hitem] at h; simp at h
    | none =>
      simp only [Except.ok.injEq, Prod.mk.injEq] at h
      obtain ⟨h1, h2⟩ := h; subst h2; rfl
    | bool b =>
      simp only [Except.ok.injEq, Prod.mk.injEq] at h
      obtain ⟨h1, h2⟩ := h; subst h2; rfl
    | int n =>
      simp only [Except.ok.injEq, Prod.mk.injEq] at h
      obtain ⟨h1, h2⟩ := h; subst h2; rfl
    | str s2 =>
      simp only [Except.ok.injEq, Prod.mk.injEq] at h
      obtain ⟨h1, h2⟩ := h; subst h2; rfl
    | list l =>
      simp only [Except.ok.injEq, Prod.mk.injEq] at h
      obtain ⟨h1, h2⟩ := h; subst h2; rfl
  | functionCallArgumentsDelta =>
    simp only [runHandler] at h
    unfold hFunctionCallArgumentsDelta at h
    simp only [Except.ok.injEq, Prod.mk.injEq] at h
    obtain ⟨h1, h2⟩ := h; subst h2; rfl
  | outputItemDone =>
    simp only [runHandler] at h
    unfold hOutputItemDone at h
    simp only [Except.ok.injEq, Prod.mk.injEq] at h
    obtain ⟨h1, h2⟩ := h; subst h2; rfl
  | reasoningSummaryTextDelta =>
    simp only [runHandler] at h
    unfold hReasoningSummaryTextDelta at h
    simp only [Except.ok.injEq, Prod.mk.injEq] at h
    obtain ⟨h1, h2⟩ := h
    subst h2
    by_cases hs : st.startedThinking <;> simp [hs]
  | reasoningSummaryTextDone =>
    simp only [runHandler] at h
    unfold hReasoningSummaryTextDone at h
    simp only [Except.ok.injEq, Prod.mk.injEq] at h
    obtain ⟨h1, h2⟩ := h; subst h2; rfl
  | outputTextDelta =>
    simp only [runHandler] at h
    unfold hOutputTextDelta at h
    simp only [Except.ok.injEq, Prod.mk.injEq] at h
    obtain ⟨h1, h2⟩ := h; subst h2; rfl

/-- A successful dispatch step whose derived name does not resolve to
`__init__` leaves `self.adapter` untouched. -/
theorem streamStep_adapterOk {cid : String} {model : PyVal} {st : StreamState}
    {ev : SSEEvent} {cs : List Chunk} {st' : StreamState}
    (hni : adapterAttr (handlerName ev) ≠ AttrView.initMethod)
    (h : streamStep cid model st ev = .ok (cs, st')) :
    st'.adapterOk = st.adapterOk := by
  unfold streamStep at h
  by_cases hdone : evIsDone ev
  · rw [if_pos hdone] at h
    simp only [Except.ok.injEq, Prod.mk.injEq] at h
    rw [← h.2]
  · rw [if_neg hdone] at h
    cases hattr : adapterAttr (handlerName ev) with
    | handler hid =>
      rw [hattr] at h
      cases hrun : runHandler hid cid model st ((evJson ev).getD PyVal.none) with
      | error e => simp [hrun] at h
      | ok p =>
        obtain ⟨cs0, st0⟩ := p
        simp only [hrun] at h
        have hok : cs0 = cs ∧ st0 = st' := by
          by_cases ha : st.adapterOk
          · simpa [ha] using h
          · by_cases hcs : cs0.isEmpty
            · simpa [ha, hcs] using h
            · simp [ha, hcs] at h
        obtain ⟨rfl, rfl⟩ := hok
        exact runHandler_adapterOk hrun
    | alwaysTruthyBad => rw [hattr] at h; simp at h
    | streamIdAttr =>
      rw [hattr] at h
      by_cases hcid : cid = ""
      · rw [if_pos hcid] at h
        simp only [Except.ok.injEq, Prod.mk.injEq] at h
        rw [← h.2]
      · rw [if_neg hcid] at h; simp at h
    | flagStarted =>
      rw [hattr] at h
      by_cases hs : st.startedThinking
      · simp [hs] at h
      · simp only [hs, Bool.false_eq_true, if_false, Except.ok.injEq,
          Prod.mk.injEq] at h
        rw [← h.2]
    | flagThinking =>
      rw [hattr] at h
      by_cases hs : st.thinking
      · simp [hs] at h
      · simp only [hs, Bool.false_eq_true, if_false, Except.ok.injEq,
          Prod.mk.injEq] at h
        rw [← h.2]
    | flagCalled =>
      rw [hattr] at h
      by_cases hs : st.calledFunction
      · simp [hs] at h
      · simp only [hs, Bool.false_eq_true, if_false, Except.ok.injEq,
          Prod.mk.injEq] at h
        rw [← h.2]
    | initMethod => exact absurd hattr hni
    | objectDunder => rw [hattr] at h; simp at h
    | missing =>
      rw [hattr] at h
      simp only [Except.ok.injEq, Prod.mk.injEq] at h
      rw [← h.2]

/-- Across a stream in which no event resolves to `__init__`, the adapter
reference survives the loop. -/
theorem genDictsLoop_adapterOk (cid : String) (model : PyVal) :
    ∀ (evs : List SSEEvent) (st : StreamState),
      (∀ ev ∈ evs, adapterAttr (handlerName ev) ≠ AttrView.initMethod) →
      (genDictsLoop cid model st evs).2.1.adapterOk = st.adapterOk := by
  intro evs
  induction evs with
  | nil => intro st hsafe; simp [genDictsLoop]
  | cons ev rest ih =>
    intro st hsafe
    cases hstep : streamStep cid model st ev with
    | error e => simp [genDictsLoop, hstep]
    | ok p =>
      obtain ⟨cs, st1⟩ := p
      have h1 : st1.adapterOk = st.adapterOk :=
        streamStep_adapterOk (hsafe ev (by simp)) hstep
      have h2 := ih st1 (fun e2 he => hsafe e2 (by simp [he]))
      simp only [genDictsLoop, hstep]
      rw [h2, h1]

/-- C1 (corrected, counterexample): the single-event stream `[_init__]` —
the derived handler name `__init__` resolves to the class constructor,
whose call `self.__init__(ev.json)` succeeds and reassigns `self.adapter`
to the event's JSON payload; the `finally` block's terminal
`_build_completion_chunk` then raises `AttributeError` at
`self.adapter.inbound_model`, so the translator emits zero chunks and in
particular no terminal chunk, falsifying "exactly one terminal chunk for
every provider event stream, guaranteed even on abnormal termination"
(the event is a regular event, not the `[DONE]` sentinel). -/
theorem streamTerminal_claim_counterexample :
    adaptChunks "chatcmpl-test" PyVal.none
      [⟨some "_init__", "{}", Option.none, Option.none, 1⟩] false = ([], true) ∧
    evIsDone ⟨some "_init__", "{}", Option.none, Option.none, 1⟩ = false :=
  ⟨rfl, rfl⟩

/-- C1 (amended): for every provider event stream none of whose events
derives a handler name resolving to the constructor (`_init__`) or to
another attribute of dunder shape — whether the source iterator ends
normally or abnormally — the translator's chunk output is a body of chunks
all carrying a null finish reason followed by exactly one terminal chunk;
the terminal chunk is last, and its finish reason is `tool_calls` when at
least one full tool-call (function_call item) chunk was emitted in the body
and `stop` otherwise.  An `_init__` event breaks the guarantee outright
(see the counterexample), and events reaching other inherited dunder
attributes have varied, payload-dependent behaviour outside the model. -/
theorem streamTerminal_spec (cid : String) (model : PyVal) (events : List SSEEvent)
    (sourceErr : Bool)
    (hsafe : ∀ ev ∈ events, adapterAttr (handlerName ev) ≠ AttrView.initMethod ∧
      adapterAttr (handlerName ev) ≠ AttrView.objectDunder) :
    ∃ body fin, (adaptChunks cid model events sourceErr).1 = body ++ [fin] ∧
      (∀ c ∈ body, c.finish = Option.none) ∧
      fin.finish = some (if body.any Chunk.isFullToolCall then "tool_calls" else "stop") := by
  have hadapt : (genDictsLoop cid model streamInit events).2.1.adapterOk = true := by
    rw [genDictsLoop_adapterOk cid model events streamInit
      (fun ev he => (hsafe ev he).1)]
    rfl
  refine ⟨(genDictsLoop cid model streamInit events).1,
    buildCompletionChunk cid model .empty
      (some (if (genDictsLoop cid model streamInit events).2.1.calledFunction
        then "tool_calls" else "stop")), ?_,
    (genDictsLoop_invariant cid model events streamInit).1, ?_⟩
  · simp only [adaptChunks, hadapt, if_true]
  · have h := (genDictsLoop_invariant cid model events streamInit).2
    rw [show streamInit.calledFunction = false from rfl, Bool.false_or] at h
    simp only [buildCompletionChunk]
    rw [h]

/-- C1 (witness): the amended guarantee at a concrete stream — one text
delta followed by an abnormal source end still yields the content chunk and
a single terminal `stop` chunk. -/
theorem streamTerminal_spec_witness :
    ∃ body fin,
      (adaptChunks "chatcmpl-w" PyVal.none
        [⟨some "response.output_text.delta", "\x7b\"delta\":\"x\"\x7d",
           Option.none, Option.none, 1⟩] true).1 = body ++ [fin] ∧
      (∀ c ∈ body, c.finish = Option.none) ∧
      fin.finish = some (if body.any Chunk.isFullToolCall then "tool_calls" else "stop") :=
  streamTerminal_spec "chatcmpl-w" PyVal.none
    [⟨some "response.output_text.delta", "\x7b\"delta\":\"x\"\x7d",
       Option.none, Option.none, 1⟩] true
    (by decide)

/-! ### C5 — tool-call id pairing -/

/-- C5: within one request translation, an assistant message carrying a
tool-call entry with an original id longer than 64 characters followed by a
tool-role message reusing that id as its `tool_call_id` yields a
`function_call` input item and a `function_call_output` input item carrying
the identical 64-character lowercase-hex call id (the SHA-256 digest of the
original). -/
theorem toolCallPairing_spec (longId : String) (name arguments content toolContent : PyVal)
    (hlen : longId.length > 64) :
    messagesToResponsesInput
      [PyVal.dict [("role", PyVal.str "assistant"), ("content", content),
         ("tool_calls", PyVal.list [PyVal.dict [("id", PyVal.str longId),
            ("function", PyVal.dict [("name", name), ("arguments", arguments)])]])],
       PyVal.dict [("role", PyVal.str "tool"), ("content", toolContent),
         ("tool_call_id", PyVal.str longId)]] =
      .ok (some
        [PyVal.dict [("role", PyVal.str "assistant"),
           ("content", PyVal.list [PyVal.dict [("type", PyVal.str "output_text"),
             ("text", PyVal.str (contentToText content))]])],
         PyVal.dict [("type", PyVal.str "function_call"), ("name", name),
           ("arguments", arguments), ("call_id", PyVal.str (sha256Hex longId))],
         PyVal.dict [("type", PyVal.str "function_call_output"),
           ("output", PyVal.str (contentToText toolContent)),
           ("status", PyVal.str "completed"),
           ("call_id", PyVal.str (sha256Hex longId))]], Option.none) ∧
    (sha256Hex longId).length = 64 ∧
    (∀ c ∈ (sha256Hex longId).data, isLowerHexDigit c = true) := by
  have hne : longId ≠ "" := by
    intro hs
    rw [hs] at hlen
    simp [String.length] at hlen
  have htr : (PyVal.str longId).truthy = true := by simp [PyVal.truthy, hne]
  have h64 : ¬ longId.length ≤ 64 := by omega
  refine ⟨?_, sha256Hex_length longId, sha256Hex_lowerHex longId⟩
  simp only [messagesToResponsesInput, messagesLoop, toolCallsLoop, normalizeCallId,
    PyVal.get, PyVal.getD, PyVal.isStr, PyVal.hasKey, PyVal.truthy, assocLookup,
    htr, h64, List.lookup]
  simp [htr, h64, hne, normalizeCallId, toolCallsLoop, PyVal.get, PyVal.getD,
    assocLookup, List.lookup, Bind.bind, Except.bind, PyVal.truthy]

/-- C5 (witness): the pairing theorem applied at a concrete 80-character
original id. -/
theorem toolCallPairing_spec_witness :
    messagesToResponsesInput
      [PyVal.dict [("role", PyVal.str "assistant"), ("content", PyVal.none),
         ("tool_calls", PyVal.list [PyVal.dict
            [("id", PyVal.str "AAAAAAAAAAAAAAAAAAAAAAAAAAAAAAAAAAAAAAAAAAAAAAAAAAAAAAAAAAAAAAAAAAAAAAAAAAAAAAAA"),
             ("function", PyVal.dict [("name", PyVal.str "f"),
               ("arguments", PyVal.str "{}")])]])],
       PyVal.dict [("role", PyVal.str "tool"), ("content", PyVal.str "out"),
         ("tool_call_id",
          PyVal.str "AAAAAAAAAAAAAAAAAAAAAAAAAAAAAAAAAAAAAAAAAAAAAAAAAAAAAAAAAAAAAAAAAAAAAAAAAAAAAAAA")]] =
      .ok (some
        [PyVal.dict [("role", PyVal.str "assistant"),
           ("content", PyVal.list [PyVal.dict [("type", PyVal.str "output_text"),
             ("text", PyVal.str "")]])],
         PyVal.dict [("type", PyVal.str "function_call"), ("name", PyVal.str "f"),
           ("arguments", PyVal.str "{}"),
           ("call_id", PyVal.str (sha256Hex "AAAAAAAAAAAAAAAAAAAAAAAAAAAAAAAAAAAAAAAAAAAAAAAAAAAAAAAAAAAAAAAAAAAAAAAAAAAAAAAA"))],
         PyVal.dict [("type", PyVal.str "function_call_output"),
           ("output", PyVal.str "out"), ("status", PyVal.str "completed"),
           ("call_id", PyVal.str (sha256Hex "AAAAAAAAAAAAAAAAAAAAAAAAAAAAAAAAAAAAAAAAAAAAAAAAAAAAAAAAAAAAAAAAAAAAAAAAAAAAAAAA"))]],
        Option.none) ∧
    (sha256Hex "AAAAAAAAAAAAAAAAAAAAAAAAAAAAAAAAAAAAAAAAAAAAAAAAAAAAAAAAAAAAAAAAAAAAAAAAAAAAAAAA").length = 64 := by
  have h := toolCallPairing_spec
    "AAAAAAAAAAAAAAAAAAAAAAAAAAAAAAAAAAAAAAAAAAAAAAAAAAAAAAAAAAAAAAAAAAAAAAAAAAAAAAAA"
    (PyVal.str "f") (PyVal.str "{}") PyVal.none (PyVal.str "out") (by decide)
  exact ⟨h.1, h.2.1⟩

/-! ### C9 — max_output_tokens precedence -/

/-- First-match lookup distributes over append. -/
theorem assocLookup_append (l₁ l₂ : List (String × PyVal)) (k : String) :
    assocLookup (l₁ ++ l₂) k =
      (match assocLookup l₁ k with
       | some v => some v
       | Option.none => assocLookup l₂ k) := by
  induction l₁ with
  | nil => simp [assocLookup]
  | cons kv rest ih =>
    obtain ⟨k1, v1⟩ := kv
    by_cases hk : (k1 == k) = true
    · simp [assocLookup, hk]
    · simp only [List.cons_append, assocLookup, hk, Bool.false_eq_true, if_false]
      exact ih

/-- An optional single-entry segment under a different key contributes
nothing to a lookup. -/
theorem assocLookup_optEntry_none (v : PyVal) (key target : String)
    (h : (key == target) = false) :
    assocLookup (match v with | PyVal.none => [] | w => [(key, w)]) target =
      Option.none := by
  cases v <;> simp [assocLookup, h]

/-- C9 (corrected, counterexample): inbound body
`{"model": "gpt-high", "max_tokens": 0, "max_output_tokens": 5}` — the claim
says `max_tokens` wins whenever present, so the outbound field should be 0;
the code selects with Python `or`, so the falsy 0 loses and the outbound
`max_output_tokens` is 5. -/
theorem maxTokens_claim_counterexample :
    (buildResponsesBody (PyVal.dict [("model", PyVal.str "gpt-high"),
        ("max_tokens", PyVal.int 0), ("max_output_tokens", PyVal.int 5)])
      ⟨"my-deployment", "auto", "auto"⟩).toOption.map
      (fun b => assocLookup b "max_output_tokens") = some (some (PyVal.int 5)) ∧
    PyVal.int 5 ≠ PyVal.int 0 :=
  ⟨rfl, by simp⟩

/-- C9 (amended): in every successfully built outbound body, the
`max_output_tokens` field is the inbound `max_tokens` value when that value
is truthy, otherwise the inbound `max_output_tokens` value (a present but
falsy `max_tokens` — 0, false, null — defers); the field is omitted when the
value so selected is null/absent. -/
theorem maxTokens_spec (payload : PyVal) (settings : Settings)
    (body : List (String × PyVal))
    (h : buildResponsesBody payload settings = .ok body) :
    assocLookup body "max_output_tokens" =
      (match (if (payload.get "max_tokens").truthy then payload.get "max_tokens"
              else payload.get "max_output_tokens") with
       | PyVal.none => Option.none
       | v => some v) := by
  simp only [buildResponsesBody] at h
  cases h1 : (match (if (payload.get "messages").truthy then payload.get "messages"
      else PyVal.list []) with
    | PyVal.list ms => messagesToResponsesInput ms
    | _ => .ok (Option.none, Option.none) :
      Except String (Option (List PyVal) × Option String)) with
  | error e => rw [h1] at h; simp [Bind.bind, Except.bind] at h
  | ok mapped =>
    rw [h1] at h
    cases h2 : transformToolChoice (payload.get "tool_choice") with
    | error e => rw [h2] at h; simp [Bind.bind, Except.bind] at h
    | ok mtc =>
      rw [h2] at h
      cases h3 : (match payload.get "model" with
        | PyVal.str s' => deriveReasoningEffort s'
        | _ => .error "AttributeError" : Except String String) with
      | error e => rw [h3] at h; simp [Bind.bind, Except.bind] at h
      | ok eff =>
        rw [h3] at h
        simp only [Bind.bind, Except.bind, Except.ok.injEq] at h
        subst h
        have hA : assocLookup (match mapped.2 with
            | some s => if s ≠ "" then [("instructions", PyVal.str s)] else []
            | Option.none => []) "max_output_tokens" = Option.none := by
          rcases mapped.2 with _ | s
          · rfl
          · by_cases hs : s ≠ "" <;> simp [hs, assocLookup]
        have hB : assocLookup (match mapped.1 with
            | some items => [("input", PyVal.list items)]
            | Option.none => []) "max_output_tokens" = Option.none := by
          rcases mapped.1 with _ | items <;> simp [assocLookup]
        have hTools : assocLookup (if (if (payload.get "tools").truthy then payload.get "tools"
            else PyVal.list []).truthy
            then [("tools", transformTools (if (payload.get "tools").truthy
              then payload.get "tools" else PyVal.list []))] else [])
            "max_output_tokens" = Option.none := by
          split_ifs <;> simp [assocLookup]
        have hTC := assocLookup_optEntry_none mtc "tool_choice" "max_output_tokens"
          (by decide)
        have hTP := assocLookup_optEntry_none (payload.get "top_p") "top_p"
          "max_output_tokens" (by decide)
        have hPCK := assocLookup_optEntry_none
          (if (payload.get "user").truthy then payload.get "user"
           else payload.get "prompt_cache_key") "prompt_cache_key"
          "max_output_tokens" (by decide)
        simp only [assocLookup_append, hA, hB, hTools, hTC, hTP, hPCK]
        cases hmx : (if (payload.get "max_tokens").truthy then payload.get "max_tokens"
          else payload.get "max_output_tokens") <;>
          simp [assocLookup]

/-- C9 (witness): the amended rule applied to the concrete body built for
`{"model": "gpt-high", "max_tokens": 7}` — the truthy `max_tokens` is
selected. -/
theorem maxTokens_spec_witness :
    assocLookup
      [("model", PyVal.str "my-deployment"), ("max_output_tokens", PyVal.int 7),
       ("stream", PyVal.bool true),
       ("reasoning", PyVal.dict [("effort", PyVal.str "high"), ("summary", PyVal.str "auto")]),
       ("store", PyVal.bool false),
       ("stream_options", PyVal.dict [("include_obfuscation", PyVal.bool false)]),
       ("truncation", PyVal.str "auto")] "max_output_tokens" = some (PyVal.int 7) :=
  maxTokens_spec (PyVal.dict [("model", PyVal.str "gpt-high"), ("max_tokens", PyVal.int 7)])
    ⟨"my-deployment", "auto", "auto"⟩ _ rfl

/-! ### C6 — SSE/JSON round trip -/

/-- Pairwise-distinct key list. -/
def pvWFKeys : List String → Bool
  | [] => true
  | k :: ks => !ks.contains k && pvWFKeys ks

mutual

/-- Well-formedness of an embedded Python value: dict keys are pairwise
distinct (Python dicts cannot carry duplicate keys; the claim quantifies
over JSON-serializable Python values). -/
def pvWF : PyVal → Bool
  | .list xs => pvWFList xs
  | .dict fs => pvWFKeys (fs.map Prod.fst) && pvWFMembers fs
  | _ => true

/-- Well-formedness of the elements of a list value. -/
def pvWFList : List PyVal → Bool
  | [] => true
  | x :: xs => pvWF x && pvWFList xs

/-- Well-formedness of the values of a dict. -/
def pvWFMembers : List (String × PyVal) → Bool
  | [] => true
  | (_, v) :: fs => pvWF v && pvWFMembers fs

end

mutual

/-- Parser fuel sufficient for a value (one unit per parser-level call). -/
def fuelOfVal : PyVal → Nat
  | .list xs => 1 + fuelOfElems xs
  | .dict fs => 1 + fuelOfMembers fs
  | _ => 1

/-- Parser fuel sufficient for array elements. -/
def fuelOfElems : List PyVal → Nat
  | [] => 0
  | x :: rest => 1 + fuelOfVal x + fuelOfElems rest

/-- Parser fuel sufficient for object members. -/
def fuelOfMembers : List (String × PyVal) → Nat
  | [] => 0
  | (_, v) :: rest => 1 + fuelOfVal v + fuelOfMembers rest

end

/-- A digit character rendered by `natToCharsAux`. -/
theorem ofNat_digit_isDigit {m : Nat} (hm : m < 10) :
    (Char.ofNat (48 + m)).isDigit = true := by
  interval_cases m <;> decide

/-- Every character of `natToCharsAux` is a decimal digit. -/
theorem natToCharsAux_digits : ∀ (fuel n : Nat), ∀ c ∈ natToCharsAux fuel n,
    c.isDigit = true := by
  intro fuel
  induction fuel with
  | zero =>
    intro n c hc
    simp only [natToCharsAux, List.mem_singleton] at hc
    subst hc
    exact ofNat_digit_isDigit (Nat.mod_lt _ (by decide))
  | succ f ih =>
    intro n c hc
    by_cases hn : n < 10
    · simp only [natToCharsAux, hn, if_true, List.mem_singleton] at hc
      subst hc
      exact ofNat_digit_isDigit hn
    · simp only [natToCharsAux, hn, if_false, List.mem_append, List.mem_singleton] at hc
      rcases hc with hc | hc
      · exact ih _ c hc
      · subst hc
        exact ofNat_digit_isDigit (Nat.mod_lt _ (by decide))

/-- `natToCharsAux` never returns the empty list. -/
theorem natToCharsAux_ne_nil (fuel n : Nat) : natToCharsAux fuel n ≠ [] := by
  cases fuel with
  | zero => simp [natToCharsAux]
  | succ f =>
    by_cases hn : n < 10 <;> simp [natToCharsAux, hn]

/-- The numeric value of a digit character produced by `natToCharsAux`. -/
theorem ofNat_digit_toNat {m : Nat} (hm : m < 10) :
    (Char.ofNat (48 + m)).toNat - 48 = m := by
  interval_cases m <;> decide

/-- `digitsToNat` inverts `natToCharsAux` (with sufficient fuel). -/
theorem digitsToNat_natToCharsAux : ∀ (fuel n : Nat), n ≤ fuel →
    digitsToNat (natToCharsAux fuel n) = n := by
  intro fuel
  induction fuel with
  | zero =>
    intro n hn
    interval_cases n
    decide
  | succ f ih =>
    intro n hn
    by_cases h10 : n < 10
    · simp only [natToCharsAux, h10, if_true]
      show digitsToNat [Char.ofNat (48 + n)] = n
      simp only [digitsToNat, List.foldl_cons, List.foldl_nil, Nat.mul_zero, Nat.zero_add]
      exact ofNat_digit_toNat h10
    · simp only [natToCharsAux, h10, if_false]
      have hdiv : n / 10 ≤ f := by
        have := Nat.div_lt_self (by omega : 0 < n) (by decide : 1 < 10)
        omega
      have hrec := ih (n / 10) hdiv
      simp only [digitsToNat] at hrec ⊢
      rw [List.foldl_append]
      simp only [List.foldl_cons, List.foldl_nil, hrec]
      have hmod : (Char.ofNat (48 + n % 10)).toNat - 48 = n % 10 :=
        ofNat_digit_toNat (Nat.mod_lt _ (by decide))
      have hge : 48 ≤ (Char.ofNat (48 + n % 10)).toNat := by
        have : n % 10 < 10 := Nat.mod_lt _ (by decide)
        set m := n % 10 with hmdef
        interval_cases m <;> decide
      omega

/-- Every character of `natToChars` is a digit. -/
theorem natToChars_digits (n : Nat) : ∀ c ∈ natToChars n, c.isDigit = true :=
  natToCharsAux_digits n n

/-- `natToChars` is never empty. -/
theorem natToChars_ne_nil (n : Nat) : natToChars n ≠ [] :=
  natToCharsAux_ne_nil n n

/-- `digitsToNat` inverts `natToChars`. -/
theorem digitsToNat_natToChars (n : Nat) : digitsToNat (natToChars n) = n :=
  digitsToNat_natToCharsAux n n (Nat.le_refl n)

/-- A digit character is none of the JSON structural characters. -/
theorem isDigit_ne_starter {c : Char} (h : c.isDigit = true) :
    c ≠ 'n' ∧ c ≠ 't' ∧ c ≠ 'f' ∧ c ≠ '"' ∧ c ≠ '-' ∧ c ≠ '[' ∧ c ≠ '{' ∧
    c ≠ ']' ∧ c ≠ '}' ∧ c ≠ ',' ∧ c ≠ ':' := by
  refine ⟨?_, ?_, ?_, ?_, ?_, ?_, ?_, ?_, ?_, ?_, ?_⟩ <;>
    (rintro rfl; exact absurd h (by decide))

/-- `takeWhile` over an append whose left part satisfies the predicate and
whose right part starts failing it. -/
theorem takeWhile_append_all {p : Char → Bool} :
    ∀ (a b : List Char), (∀ c ∈ a, p c = true) →
      (∀ c, b.head? = some c → p c = false) →
      (a ++ b).takeWhile p = a := by
  intro a
  induction a with
  | nil =>
    intro b _ hb
    cases b with
    | nil => rfl
    | cons c cs => simp [List.takeWhile_cons, hb c rfl]
  | cons x a' ih =>
    intro b ha hb
    have hx : p x = true := ha x (by simp)
    simp only [List.cons_append, List.takeWhile_cons, hx, if_true]
    rw [ih b (fun c hc => ha c (by simp [hc])) hb]

/-- `parseDigitsRun` consumes exactly a rendered natural number. -/
theorem parseDigitsRun_natToChars (n : Nat) (rest : List Char)
    (hrest : ∀ c, rest.head? = some c → c.isDigit = false) :
    parseDigitsRun (natToChars n ++ rest) = some (n, rest) := by
  unfold parseDigitsRun
  rw [takeWhile_append_all (natToChars n) rest (natToChars_digits n) hrest]
  have hne : (natToChars n).isEmpty = false := by
    cases hh : natToChars n with
    | nil => exact absurd hh (natToChars_ne_nil n)
    | cons a as => rfl
  simp only [hne, Bool.false_eq_true, if_false, digitsToNat_natToChars]
  rw [List.drop_left]

/-- `hexVal` of a lowercase hex digit. -/
theorem hexVal_hexDigitChar {m : Nat} (hm : m < 16) :
    hexVal (hexDigitChar m) = some m := by
  interval_cases m <;> decide

/-- The quote branch of `parseStringBody`. -/
theorem parseStringBody_quote (r : List Char) :
    parseStringBody ('"' :: r) = some ([], r) := by
  unfold parseStringBody
  simp

/-- The plain-character branch of `parseStringBody`. -/
theorem parseStringBody_plain {c : Char} (hq : c ≠ '"') (hb : c ≠ '\\')
    (hctl : ¬ c.toNat < 0x20) (r : List Char) :
    parseStringBody (c :: r) = (parseStringBody r).map (fun p => (c :: p.1, p.2)) := by
  conv_lhs => rw [parseStringBody.eq_def]
  simp [hq, hb, hctl]

/-- The string-body parser inverts JSON escaping. -/
theorem parseStringBody_escape :
    ∀ (s rest : List Char),
      parseStringBody (escapeJsonChars s ++ ('"' :: rest)) = some (s, rest) := by
  intro s
  induction s with
  | nil =>
    intro rest
    show parseStringBody (escapeJsonChars [] ++ '"' :: rest) = some ([], rest)
    rw [show escapeJsonChars [] = [] from rfl, List.nil_append, parseStringBody_quote]
  | cons c s' ih =>
    intro rest
    have hesc : escapeJsonChars (c :: s') = escapeJsonChar c ++ escapeJsonChars s' := by
      simp [escapeJsonChars]
    rw [hesc, List.append_assoc]
    by_cases hq : c = '"'
    · subst hq
      rw [show escapeJsonChar '"' = ['\\', '"'] from rfl]
      unfold parseStringBody
      simp [unescapeChar, ih rest]
    · by_cases hb : c = '\\'
      · subst hb
        rw [show escapeJsonChar '\\' = ['\\', '\\'] from rfl]
        unfold parseStringBody
        simp [unescapeChar, ih rest]
      · by_cases hctl : c.toNat < 0x20
        · by_cases h8 : c = Char.ofNat 0x08
          · subst h8
            rw [show escapeJsonChar (Char.ofNat 0x08) = ['\\', 'b'] from rfl]
            unfold parseStringBody
            simp [unescapeChar, ih rest]
          · by_cases h9 : c = Char.ofNat 0x09
            · subst h9
              rw [show escapeJsonChar (Char.ofNat 0x09) = ['\\', 't'] from rfl]
              unfold parseStringBody
              simp [unescapeChar, ih rest]
            · by_cases ha : c = Char.ofNat 0x0a
              · subst ha
                rw [show escapeJsonChar (Char.ofNat 0x0a) = ['\\', 'n'] from rfl]
                unfold parseStringBody
                simp [unescapeChar, ih rest]
              · by_cases hcc : c = Char.ofNat 0x0c
                · subst hcc
                  rw [show escapeJsonChar (Char.ofNat 0x0c) = ['\\', 'f'] from rfl]
                  unfold parseStringBody
                  simp [unescapeChar, ih rest]
                · by_cases hd : c = Char.ofNat 0x0d
                  · subst hd
                    rw [show escapeJsonChar (Char.ofNat 0x0d) = ['\\', 'r'] from rfl]
                    unfold parseStringBody
                    simp [unescapeChar, ih rest]
                  · rw [show escapeJsonChar c =
                      ['\\', 'u', '0', '0', hexDigitChar (c.toNat / 16),
                       hexDigitChar (c.toNat % 16)] from by
                        simp [escapeJsonChar, hq, hb, hctl, h8, h9, ha, hcc, hd]]
                    unfold parseStringBody
                    have hdiv : c.toNat / 16 < 16 := by omega
                    have hmod : c.toNat % 16 < 16 := Nat.mod_lt _ (by decide)
                    simp [hexVal_hexDigitChar hdiv, hexVal_hexDigitChar hmod,
                      show hexVal '0' = some 0 from rfl, ih rest,
                      show ∀ x y : Nat, ((0 * 16 + 0) * 16 + x) * 16 + y = x * 16 + y
                        from fun x y => by omega]
                    rw [show c.toNat / 16 * 16 + c.toNat % 16 = c.toNat from by omega]
                    exact Char.ofNat_toNat c
        · rw [show escapeJsonChar c = [c] from by simp [escapeJsonChar, hq, hb, hctl],
            List.singleton_append, parseStringBody_plain hq hb hctl, ih rest]
          rfl

/-- Fuel is always positive. -/
theorem fuelOfVal_pos (v : PyVal) : 1 ≤ fuelOfVal v := by
  cases v <;> simp [fuelOfVal]

/-- Every serialized value starts with a value-start character. -/
theorem dumpVal_head (isep ksep : List Char) (v : PyVal) :
    ∃ c t, dumpVal isep ksep v = c :: t ∧
      (c = 'n' ∨ c = 't' ∨ c = 'f' ∨ c = '"' ∨ c = '-' ∨ c = '[' ∨ c = '{' ∨
        c.isDigit = true) := by
  cases v with
  | none => exact ⟨'n', _, rfl, by simp⟩
  | bool b => cases b with
    | true => exact ⟨'t', _, rfl, by simp⟩
    | false => exact ⟨'f', _, rfl, by simp⟩
  | str s => exact ⟨'"', _, rfl, by simp⟩
  | list xs => exact ⟨'[', _, rfl, by simp⟩
  | dict fs => exact ⟨'{', _, rfl, by simp⟩
  | int n =>
    cases n with
    | ofNat m =>
      cases hm : natToChars m with
      | nil => exact absurd hm (natToChars_ne_nil m)
      | cons c t =>
        refine ⟨c, t, by simp [dumpVal, intToChars, hm], ?_⟩
        have := natToChars_digits m c (by simp [hm])
        tauto
    | negSucc m => exact ⟨'-', _, rfl, by simp⟩

/-- Every serialized value starts with a character other than `]` and
`}`. -/
theorem dumpVal_head_ne (isep ksep : List Char) (v : PyVal) :
    ∃ c t, dumpVal isep ksep v = c :: t ∧ c ≠ ']' ∧ c ≠ '}' := by
  obtain ⟨c, t, heq, hstart⟩ := dumpVal_head isep ksep v
  refine ⟨c, t, heq, ?_, ?_⟩ <;>
    (rcases hstart with h | h | h | h | h | h | h | h <;>
      first
        | (subst h; decide)
        | (have h9 := isDigit_ne_starter h; rintro rfl; tauto))

/-- The serialization of a nonempty element list starts with its first
element's serialization. -/
theorem dumpElems_cons (isep ksep : List Char) (x : PyVal) (xs : List PyVal) :
    ∃ t, dumpElems isep ksep (x :: xs) = dumpVal isep ksep x ++ t := by
  cases xs with
  | nil => exact ⟨[], by simp [dumpElems]⟩
  | cons y r => exact ⟨isep ++ dumpElems isep ksep (y :: r), by simp [dumpElems]⟩

mutual

/-- The fueled parser inverts the compact serializer on any value, given
enough fuel and a non-digit continuation. -/
theorem parseVal_dump (v : PyVal) (n : Nat) (rest : List Char)
    (hn : fuelOfVal v ≤ n)
    (hrest : ∀ c, rest.head? = some c → c.isDigit = false) :
    parseVal n (dumpVal [','] [':'] v ++ rest) = some (v, rest) := by
  cases n with
  | zero => exact absurd hn (by have := fuelOfVal_pos v; omega)
  | succ m =>
    cases v with
    | none => simp [parseVal, dumpVal]
    | bool b => cases b <;> simp [parseVal, dumpVal]
    | str s =>
      show parseVal (m + 1) (('"' :: (escapeJsonChars s.data ++ ['"'])) ++ rest) = _
      rw [show ('"' :: (escapeJsonChars s.data ++ ['"'])) ++ rest =
        '"' :: (escapeJsonChars s.data ++ ('"' :: rest)) from by simp]
      simp [parseVal, parseStringBody_escape]
    | int k =>
      cases k with
      | ofNat num =>
        show parseVal (m + 1) (natToChars num ++ rest) = _
        cases hm : natToChars num with
        | nil => exact absurd hm (natToChars_ne_nil num)
        | cons c t =>
          have hd : c.isDigit = true := natToChars_digits num c (by simp [hm])
          obtain ⟨n1, n2, n3, n4, n5, n6, n7, _, _, _, _⟩ := isDigit_ne_starter hd
          rw [List.cons_append]
          rw [show parseVal (m + 1) (c :: (t ++ rest)) =
            (parseDigitsRun (c :: (t ++ rest))).map (fun p => (PyVal.int p.1, p.2)) from by
              simp [parseVal, n1, n2, n3, n4, n5, n6, n7, hd]]
          rw [show c :: (t ++ rest) = natToChars num ++ rest from by simp [hm]]
          rw [parseDigitsRun_natToChars num rest hrest]
          rfl
      | negSucc num =>
        show parseVal (m + 1) ('-' :: (natToChars (num + 1) ++ rest)) = _
        simp [parseVal, parseDigitsRun_natToChars (num + 1) rest hrest]
        rw [Int.negSucc_eq]
        ring
    | list xs =>
      cases xs with
      | nil => simp [parseVal, dumpVal, dumpElems]
      | cons x xs' =>
        show parseVal (m + 1) (('[' :: (dumpElems [','] [':'] (x :: xs') ++ [']'])) ++ rest) = _
        obtain ⟨t0, ht0⟩ := dumpElems_cons [','] [':'] x xs'
        obtain ⟨c, t, hct, hne1, hne2⟩ := dumpVal_head_ne [','] [':'] x
        have hshape : dumpElems [','] [':'] (x :: xs') ++ (']' :: rest) =
            c :: (t ++ t0 ++ (']' :: rest)) := by
          rw [ht0, hct]; simp
        rw [show ('[' :: (dumpElems [','] [':'] (x :: xs') ++ [']'])) ++ rest =
          '[' :: (dumpElems [','] [':'] (x :: xs') ++ (']' :: rest)) from by simp]
        rw [hshape]
        rw [show parseVal (m + 1) ('[' :: (c :: (t ++ t0 ++ (']' :: rest)))) =
          (parseElems m (c :: (t ++ t0 ++ (']' :: rest)))).map
            (fun p => (PyVal.list p.1, p.2)) from by simp [parseVal, hne1]]
        rw [← hshape]
        have hfe : fuelOfElems (x :: xs') ≤ m := by
          simp only [fuelOfVal] at hn; omega
        rw [parseElems_dump (x :: xs') m rest (by simp) hfe]
        rfl
    | dict fs =>
      cases fs with
      | nil => simp [parseVal, dumpVal, dumpMembers]
      | cons f fs' =>
        obtain ⟨k, v0⟩ := f
        show parseVal (m + 1)
          (('{' :: (dumpMembers [','] [':'] ((k, v0) :: fs') ++ ['}'])) ++ rest) = _
        have hshape : ∃ t, dumpMembers [','] [':'] ((k, v0) :: fs') = '"' :: t := by
          cases fs' with
          | nil => exact ⟨_, rfl⟩
          | cons g gs => exact ⟨_, rfl⟩
        obtain ⟨t, ht⟩ := hshape
        rw [show ('{' :: (dumpMembers [','] [':'] ((k, v0) :: fs') ++ ['}'])) ++ rest =
          '{' :: (dumpMembers [','] [':'] ((k, v0) :: fs') ++ ('}' :: rest)) from by simp]
        rw [ht, List.cons_append]
        rw [show parseVal (m + 1) ('{' :: ('"' :: (t ++ ('}' :: rest)))) =
          (parseMembers m ('"' :: (t ++ ('}' :: rest)))).map
            (fun p => (PyVal.dict p.1, p.2)) from by simp [parseVal]]
        rw [show '"' :: (t ++ ('}' :: rest)) =
          dumpMembers [','] [':'] ((k, v0) :: fs') ++ ('}' :: rest) from by simp [ht]]
        have hfm : fuelOfMembers ((k, v0) :: fs') ≤ m := by
          simp only [fuelOfVal] at hn; omega
        rw [parseMembers_dump ((k, v0) :: fs') m rest (by simp) hfm]
        rfl

/-- The fueled element parser inverts the serialized element list followed
by the closing bracket. -/
theorem parseElems_dump (xs : List PyVal) (n : Nat) (rest : List Char)
    (hne : xs ≠ []) (hn : fuelOfElems xs ≤ n) :
    parseElems n (dumpElems [','] [':'] xs ++ (']' :: rest)) = some (xs, rest) := by
  cases xs with
  | nil => exact absurd rfl hne
  | cons x xs' =>
    cases n with
    | zero => simp [fuelOfElems] at hn
    | succ m =>
      cases xs' with
      | nil =>
        show parseElems (m + 1) (dumpVal [','] [':'] x ++ (']' :: rest)) = _
        have hfx : fuelOfVal x ≤ m := by simp only [fuelOfElems] at hn; omega
        rw [show parseElems (m + 1) (dumpVal [','] [':'] x ++ (']' :: rest)) =
          (match parseVal m (dumpVal [','] [':'] x ++ (']' :: rest)) with
           | some (v, ',' :: r) => (parseElems m r).map (fun p => (v :: p.1, p.2))
           | some (v, ']' :: r) => some ([v], r)
           | _ => Option.none) from by simp [parseElems]]
        rw [parseVal_dump x m (']' :: rest) hfx (by intro c hc; cases hc; decide)]
        rfl
      | cons y r =>
        show parseElems (m + 1)
          ((dumpVal [','] [':'] x ++ [','] ++ dumpElems [','] [':'] (y :: r))
            ++ (']' :: rest)) = _
        have hfx : fuelOfVal x ≤ m := by simp only [fuelOfElems] at hn; omega
        have hfr : fuelOfElems (y :: r) ≤ m := by
          simp only [fuelOfElems] at hn ⊢; omega
        rw [show (dumpVal [','] [':'] x ++ [','] ++ dumpElems [','] [':'] (y :: r))
            ++ (']' :: rest) =
          dumpVal [','] [':'] x ++ (',' :: (dumpElems [','] [':'] (y :: r)
            ++ (']' :: rest))) from by simp]
        rw [show parseElems (m + 1) (dumpVal [','] [':'] x ++ (',' ::
            (dumpElems [','] [':'] (y :: r) ++ (']' :: rest)))) =
          (match parseVal m (dumpVal [','] [':'] x ++ (',' ::
              (dumpElems [','] [':'] (y :: r) ++ (']' :: rest)))) with
           | some (v, ',' :: r2) => (parseElems m r2).map (fun p => (v :: p.1, p.2))
           | some (v, ']' :: r2) => some ([v], r2)
           | _ => Option.none) from by simp [parseElems]]
        rw [parseVal_dump x m (',' :: (dumpElems [','] [':'] (y :: r) ++ (']' :: rest)))
          hfx (by intro c hc; cases hc; decide)]
        rw [show (match (some (x, ',' :: (dumpElems [','] [':'] (y :: r) ++ (']' :: rest)))
            : Option (PyVal × List Char)) with
           | some (v, ',' :: r2) => (parseElems m r2).map
               (fun p => ((v :: p.1 : List PyVal), p.2))
           | some (v, ']' :: r2) => some ([v], r2)
           | _ => Option.none) =
          (parseElems m (dumpElems [','] [':'] (y :: r) ++ (']' :: rest))).map
            (fun p => (x :: p.1, p.2)) from rfl]
        rw [parseElems_dump (y :: r) m rest (by simp) hfr]
        rfl

/-- The fueled member parser inverts the serialized member list followed by
the closing brace. -/
theorem parseMembers_dump (fs : List (String × PyVal)) (n : Nat) (rest : List Char)
    (hne : fs ≠ []) (hn : fuelOfMembers fs ≤ n) :
    parseMembers n (dumpMembers [','] [':'] fs ++ ('}' :: rest)) = some (fs, rest) := by
  cases fs with
  | nil => exact absurd rfl hne
  | cons f fs' =>
    obtain ⟨k, v0⟩ := f
    cases n with
    | zero => simp [fuelOfMembers] at hn
    | succ m =>
      have hfv : fuelOfVal v0 ≤ m := by simp only [fuelOfMembers] at hn; omega
      cases fs' with
      | nil =>
        show parseMembers (m + 1)
          (('"' :: (escapeJsonChars k.data ++ ['"'] ++ [':'] ++ dumpVal [','] [':'] v0))
            ++ ('}' :: rest)) = _
        rw [show ('"' :: (escapeJsonChars k.data ++ ['"'] ++ [':'] ++ dumpVal [','] [':'] v0))
            ++ ('}' :: rest) =
          '"' :: (escapeJsonChars k.data ++ ('"' :: (':' ::
            (dumpVal [','] [':'] v0 ++ ('}' :: rest))))) from by simp]
        rw [show parseMembers (m + 1) ('"' :: (escapeJsonChars k.data ++ ('"' :: (':' ::
            (dumpVal [','] [':'] v0 ++ ('}' :: rest)))))) =
          (match parseStringBody (escapeJsonChars k.data ++ ('"' :: (':' ::
              (dumpVal [','] [':'] v0 ++ ('}' :: rest))))) with
           | some (k2, ':' :: r2) =>
             (match parseVal m r2 with
              | some (v, ',' :: r3) =>
                (parseMembers m r3).map (fun p => ((String.mk k2, v) :: p.1, p.2))
              | some (v, '}' :: r3) => some ([(String.mk k2, v)], r3)
              | _ => Option.none)
           | _ => Option.none) from by simp [parseMembers]]
        rw [parseStringBody_escape]
        change (match parseVal m (dumpVal [','] [':'] v0 ++ ('}' :: rest)) with
           | some (v, ',' :: r3) =>
             (parseMembers m r3).map
               (fun (p : List (String × PyVal) × List Char) =>
                 ((String.mk k.data, v) :: p.1, p.2))
           | some (v, '}' :: r3) => some ([(String.mk k.data, v)], r3)
           | _ => Option.none) = some ([(k, v0)], rest)
        rw [parseVal_dump v0 m ('}' :: rest) hfv (by intro c hc; cases hc; decide)]
        rfl
      | cons g gs =>
        have hfm : fuelOfMembers (g :: gs) ≤ m := by
          simp only [fuelOfMembers] at hn ⊢; omega
        show parseMembers (m + 1)
          (('"' :: (escapeJsonChars k.data ++ ['"'] ++ [':'] ++ dumpVal [','] [':'] v0)
            ++ [','] ++ dumpMembers [','] [':'] (g :: gs)) ++ ('}' :: rest)) = _
        rw [show ('"' :: (escapeJsonChars k.data ++ ['"'] ++ [':'] ++ dumpVal [','] [':'] v0)
            ++ [','] ++ dumpMembers [','] [':'] (g :: gs)) ++ ('}' :: rest) =
          '"' :: (escapeJsonChars k.data ++ ('"' :: (':' ::
            (dumpVal [','] [':'] v0 ++ (',' :: (dumpMembers [','] [':'] (g :: gs)
              ++ ('}' :: rest))))))) from by simp]
        rw [show parseMembers (m + 1) ('"' :: (escapeJsonChars k.data ++ ('"' :: (':' ::
            (dumpVal [','] [':'] v0 ++ (',' :: (dumpMembers [','] [':'] (g :: gs)
              ++ ('}' :: rest)))))))) =
          (match parseStringBody (escapeJsonChars k.data ++ ('"' :: (':' ::
              (dumpVal [','] [':'] v0 ++ (',' :: (dumpMembers [','] [':'] (g :: gs)
                ++ ('}' :: rest))))))) with
           | some (k2, ':' :: r2) =>
             (match parseVal m r2 with
              | some (v, ',' :: r3) =>
                (parseMembers m r3).map (fun p => ((String.mk k2, v) :: p.1, p.2))
              | some (v, '}' :: r3) => some ([(String.mk k2, v)], r3)
              | _ => Option.none)
           | _ => Option.none) from by simp [parseMembers]]
        rw [parseStringBody_escape]
        change (match parseVal m (dumpVal [','] [':'] v0 ++ (',' ::
              (dumpMembers [','] [':'] (g :: gs) ++ ('}' :: rest)))) with
           | some (v, ',' :: r3) =>
             (parseMembers m r3).map
               (fun (p : List (String × PyVal) × List Char) =>
                 ((String.mk k.data, v) :: p.1, p.2))
           | some (v, '}' :: r3) => some ([(String.mk k.data, v)], r3)
           | _ => Option.none) = some ((k, v0) :: g :: gs, rest)
        rw [parseVal_dump v0 m (',' :: (dumpMembers [','] [':'] (g :: gs) ++ ('}' :: rest)))
          hfv (by intro c hc; cases hc; decide)]
        change (parseMembers m (dumpMembers [','] [':'] (g :: gs) ++ ('}' :: rest))).map
            (fun (p : List (String × PyVal) × List Char) =>
              ((String.mk k.data, v0) :: p.1, p.2)) = some ((k, v0) :: g :: gs, rest)
        rw [parseMembers_dump (g :: gs) m rest (by simp) hfm]
        rfl

end

/-- A digit character's code point lies in `[48, 57]`. -/
theorem isDigit_toNat {c : Char} (h : c.isDigit = true) :
    48 ≤ c.toNat ∧ c.toNat ≤ 57 := by
  simp only [Char.isDigit, Bool.and_eq_true, decide_eq_true_eq] at h
  obtain ⟨h1, h2⟩ := h
  exact ⟨h1, h2⟩

/-- A lowercase hex digit is a printable character. -/
theorem hexDigitChar_ge_space {n : Nat} (hn : n < 16) :
    0x20 ≤ (hexDigitChar n).toNat := by
  interval_cases n <;> decide

/-- Every character emitted by the JSON escaper is printable (`≥ 0x20`). -/
theorem escapeJsonChar_ge_space (c : Char) :
    ∀ d ∈ escapeJsonChar c, 0x20 ≤ d.toNat := by
  intro d hd
  unfold escapeJsonChar at hd
  split at hd
  · simp at hd; rcases hd with rfl | rfl <;> decide
  · split at hd
    · simp at hd; rcases hd with rfl | rfl <;> decide
    · split at hd
      · rename_i hctl
        split at hd
        · simp at hd; rcases hd with rfl | rfl <;> decide
        · split at hd
          · simp at hd; rcases hd with rfl | rfl <;> decide
          · split at hd
            · simp at hd; rcases hd with rfl | rfl <;> decide
            · split at hd
              · simp at hd; rcases hd with rfl | rfl <;> decide
              · split at hd
                · simp at hd; rcases hd with rfl | rfl <;> decide
                · simp at hd
                  rcases hd with rfl | rfl | rfl | rfl | rfl
                  · decide
                  · decide
                  · decide
                  · exact hexDigitChar_ge_space (by omega)
                  · exact hexDigitChar_ge_space (by omega)
      · rename_i hge
        simp at hd
        subst hd
        omega

/-- Every character of an escaped string body is printable. -/
theorem escapeJsonChars_ge_space (cs : List Char) :
    ∀ d ∈ escapeJsonChars cs, 0x20 ≤ d.toNat := by
  intro d hd
  simp only [escapeJsonChars, List.mem_flatten, List.mem_map] at hd
  obtain ⟨l, ⟨c, _, rfl⟩, hdl⟩ := hd
  exact escapeJsonChar_ge_space c d hdl

/-- Every character of a serialized integer is printable. -/
theorem intToChars_ge_space (n : Int) :
    ∀ d ∈ intToChars n, 0x20 ≤ d.toNat := by
  intro d hd
  cases n with
  | ofNat m =>
    simp only [intToChars] at hd
    have h1 := (isDigit_toNat (natToChars_digits m d hd)).1
    omega
  | negSucc m =>
    simp only [intToChars, List.mem_cons] at hd
    rcases hd with rfl | hd
    · decide
    · have h1 := (isDigit_toNat (natToChars_digits (m + 1) d hd)).1
      omega

mutual

/-- Every character of a compactly serialized value is printable. -/
theorem dumpVal_ge_space (v : PyVal) :
    ∀ c ∈ dumpVal [','] [':'] v, 0x20 ≤ c.toNat := by
  intro c hc
  cases v with
  | none =>
    simp only [dumpVal] at hc
    fin_cases hc <;> decide
  | bool b =>
    cases b with
    | true =>
      simp only [dumpVal] at hc
      fin_cases hc <;> decide
    | false =>
      simp only [dumpVal] at hc
      fin_cases hc <;> decide
  | int n =>
    simp only [dumpVal] at hc
    exact intToChars_ge_space n c hc
  | str s =>
    simp only [dumpVal] at hc
    rcases List.mem_cons.mp hc with rfl | hc2
    · decide
    rcases List.mem_append.mp hc2 with h3 | h3
    · exact escapeJsonChars_ge_space _ c h3
    · simp at h3; subst h3; decide
  | list xs =>
    simp only [dumpVal] at hc
    rcases List.mem_cons.mp hc with rfl | hc2
    · decide
    rcases List.mem_append.mp hc2 with h3 | h3
    · exact dumpElems_ge_space xs c h3
    · simp at h3; subst h3; decide
  | dict fs =>
    simp only [dumpVal] at hc
    rcases List.mem_cons.mp hc with rfl | hc2
    · decide
    rcases List.mem_append.mp hc2 with h3 | h3
    · exact dumpMembers_ge_space fs c h3
    · simp at h3; subst h3; decide

/-- Every character of serialized array elements is printable. -/
theorem dumpElems_ge_space (xs : List PyVal) :
    ∀ c ∈ dumpElems [','] [':'] xs, 0x20 ≤ c.toNat := by
  intro c hc
  cases xs with
  | nil => simp [dumpElems] at hc
  | cons x xs' =>
    cases xs' with
    | nil =>
      simp only [dumpElems] at hc
      exact dumpVal_ge_space x c hc
    | cons y r =>
      simp only [dumpElems] at hc
      rcases List.mem_append.mp hc with h3 | h3
      · rcases List.mem_append.mp h3 with h4 | h4
        · exact dumpVal_ge_space x c h4
        · simp at h4; subst h4; decide
      · exact dumpElems_ge_space (y :: r) c h3

/-- Every character of serialized object members is printable. -/
theorem dumpMembers_ge_space (fs : List (String × PyVal)) :
    ∀ c ∈ dumpMembers [','] [':'] fs, 0x20 ≤ c.toNat := by
  intro c hc
  cases fs with
  | nil => simp [dumpMembers] at hc
  | cons f fs' =>
    obtain ⟨k, v⟩ := f
    cases fs' with
    | nil =>
      simp only [dumpMembers] at hc
      rcases List.mem_cons.mp hc with rfl | hc2
      · decide
      rcases List.mem_append.mp hc2 with h3 | h3
      · rcases List.mem_append.mp h3 with h4 | h4
        · rcases List.mem_append.mp h4 with h5 | h5
          · exact escapeJsonChars_ge_space _ c h5
          · simp at h5; subst h5; decide
        · simp at h4; subst h4; decide
      · exact dumpVal_ge_space v c h3
    | cons g gs =>
      simp only [dumpMembers] at hc
      rcases List.mem_append.mp hc with h3 | h3
      · rcases List.mem_append.mp h3 with h4 | h4
        · rcases List.mem_cons.mp h4 with rfl | hc2
          · decide
          rcases List.mem_append.mp hc2 with h5 | h5
          · rcases List.mem_append.mp h5 with h6 | h6
            · rcases List.mem_append.mp h6 with h7 | h7
              · exact escapeJsonChars_ge_space _ c h7
              · simp at h7; subst h7; decide
            · simp at h6; subst h6; decide
          · exact dumpVal_ge_space v c h5
        · simp at h4; subst h4; decide
      · exact dumpMembers_ge_space (g :: gs) c h3

end

mutual

/-- The parser fuel needed for a value is at most its serialized length. -/
theorem fuelOfVal_le (v : PyVal) :
    fuelOfVal v ≤ (dumpVal [','] [':'] v).length := by
  cases v with
  | none => simp [fuelOfVal, dumpVal]
  | bool b => cases b <;> simp [fuelOfVal, dumpVal]
  | int n =>
    cases n with
    | ofNat m =>
      show 1 ≤ (natToChars m).length
      cases h : natToChars m with
      | nil => exact absurd h (natToChars_ne_nil m)
      | cons a t => simp
    | negSucc m =>
      show 1 ≤ ('-' :: natToChars (m + 1)).length
      simp
  | str s =>
    show 1 ≤ ('"' :: (escapeJsonChars s.data ++ ['"'])).length
    simp
  | list xs =>
    show 1 + fuelOfElems xs ≤ ('[' :: (dumpElems [','] [':'] xs ++ [']'])).length
    have h := fuelOfElems_le xs
    simp only [List.length_cons, List.length_append]
    omega
  | dict fs =>
    show 1 + fuelOfMembers fs ≤ ('{' :: (dumpMembers [','] [':'] fs ++ ['}'])).length
    have h := fuelOfMembers_le fs
    simp only [List.length_cons, List.length_append]
    omega

/-- The parser fuel needed for array elements is at most the serialized
length plus one. -/
theorem fuelOfElems_le (xs : List PyVal) :
    fuelOfElems xs ≤ (dumpElems [','] [':'] xs).length + 1 := by
  cases xs with
  | nil => simp [fuelOfElems, dumpElems]
  | cons x xs' =>
    cases xs' with
    | nil =>
      show 1 + fuelOfVal x + fuelOfElems [] ≤ (dumpVal [','] [':'] x).length + 1
      have h := fuelOfVal_le x
      simp only [fuelOfElems]
      omega
    | cons y r =>
      show 1 + fuelOfVal x + fuelOfElems (y :: r) ≤
        (dumpVal [','] [':'] x ++ [','] ++ dumpElems [','] [':'] (y :: r)).length + 1
      have h1 := fuelOfVal_le x
      have h2 := fuelOfElems_le (y :: r)
      simp only [List.length_append, List.length_cons, List.length_nil]
      omega

/-- The parser fuel needed for object members is at most the serialized
length plus one. -/
theorem fuelOfMembers_le (fs : List (String × PyVal)) :
    fuelOfMembers fs ≤ (dumpMembers [','] [':'] fs).length + 1 := by
  cases fs with
  | nil => simp [fuelOfMembers, dumpMembers]
  | cons f fs' =>
    obtain ⟨k, v⟩ := f
    cases fs' with
    | nil =>
      show 1 + fuelOfVal v + fuelOfMembers [] ≤
        ('"' :: (escapeJsonChars k.data ++ ['"'] ++ [':'] ++
          dumpVal [','] [':'] v)).length + 1
      have h := fuelOfVal_le v
      simp only [fuelOfMembers, List.length_cons, List.length_append]
      omega
    | cons g gs =>
      show 1 + fuelOfVal v + fuelOfMembers (g :: gs) ≤
        ('"' :: (escapeJsonChars k.data ++ ['"'] ++ [':'] ++ dumpVal [','] [':'] v)
          ++ [','] ++ dumpMembers [','] [':'] (g :: gs)).length + 1
      have h1 := fuelOfVal_le v
      have h2 := fuelOfMembers_le (g :: gs)
      simp only [List.length_cons, List.length_append]
      omega

end

/-- `json.loads` inverts the compact serializer. -/
theorem jsonLoads_dumpCompact (x : PyVal) :
    jsonLoads (jsonDumpsCompact x) = some x := by
  have h := parseVal_dump x ((dumpVal [','] [':'] x).length + 1) []
    (le_trans (fuelOfVal_le x) (Nat.le_succ _))
    (by intro c hc; simp at hc)
  rw [List.append_nil] at h
  show (match parseVal ((dumpVal [','] [':'] x).length + 1) (dumpVal [','] [':'] x) with
        | some (v, []) => some v
        | _ => Option.none) = some x
  rw [h]

/-- Characters at or above `0x20` other than NEL and the Unicode
line/paragraph separators are not `splitlines` boundaries. -/
theorem isLineBoundary_false_of {c : Char} (hge : 0x20 ≤ c.toNat)
    (h85 : c ≠ Char.ofNat 0x85) (h28 : c ≠ Char.ofNat 0x2028)
    (h29 : c ≠ Char.ofNat 0x2029) : isLineBoundary c = false := by
  simp only [isLineBoundary, Bool.or_eq_false_iff, decide_eq_false_iff_not]
  refine ⟨⟨⟨⟨⟨⟨⟨⟨⟨?_, ?_⟩, ?_⟩, ?_⟩, ?_⟩, ?_⟩, ?_⟩, h85⟩, h28⟩, h29⟩ <;>
    (rintro rfl; revert hge; decide)

/-- Printable characters (`≥ 0x21`) are not Python `strip` whitespace. -/
theorem isPyWs_false_of {c : Char} (hge : 0x21 ≤ c.toNat) : isPyWs c = false := by
  simp only [isPyWs, Bool.or_eq_false_iff, decide_eq_false_iff_not]
  refine ⟨⟨⟨⟨⟨?_, ?_⟩, ?_⟩, ?_⟩, ?_⟩, ?_⟩ <;> (rintro rfl; revert hge; decide)

/-- The first character of a serialized value is not `strip` whitespace. -/
theorem dumpVal_head_not_ws (v : PyVal) :
    ∀ c, (dumpVal [','] [':'] v).head? = some c → isPyWs c = false := by
  intro c hc
  obtain ⟨c0, t, heq, hcls⟩ := dumpVal_head [','] [':'] v
  rw [heq] at hc
  simp only [List.head?_cons, Option.some.injEq] at hc
  subst hc
  rcases hcls with rfl | rfl | rfl | rfl | rfl | rfl | rfl | hdig
  · decide
  · decide
  · decide
  · decide
  · decide
  · decide
  · decide
  · exact isPyWs_false_of (by have h1 := (isDigit_toNat hdig).1; omega)

/-- The serialization of a value ends with a non-whitespace character. -/
theorem dumpVal_last (v : PyVal) :
    ∃ t c, dumpVal [','] [':'] v = t ++ [c] ∧ isPyWs c = false := by
  cases v with
  | none => exact ⟨['n', 'u', 'l'], 'l', rfl, by decide⟩
  | bool b =>
    cases b with
    | true => exact ⟨['t', 'r', 'u'], 'e', rfl, by decide⟩
    | false => exact ⟨['f', 'a', 'l', 's'], 'e', rfl, by decide⟩
  | str s =>
    exact ⟨'"' :: escapeJsonChars s.data, '"', by simp [dumpVal], by decide⟩
  | list xs =>
    exact ⟨'[' :: dumpElems [','] [':'] xs, ']', by simp [dumpVal], by decide⟩
  | dict fs =>
    exact ⟨'{' :: dumpMembers [','] [':'] fs, '}', by simp [dumpVal], by decide⟩
  | int n =>
    cases n with
    | ofNat m =>
      cases hr : (natToChars m).reverse with
      | nil =>
        exact absurd (by simpa using congrArg List.reverse hr) (natToChars_ne_nil m)
      | cons c t =>
        have hm : natToChars m = t.reverse ++ [c] := by
          have h2 := congrArg List.reverse hr
          simpa using h2
        have hdig := natToChars_digits m c (by rw [hm]; simp)
        refine ⟨t.reverse, c, by simpa [dumpVal, intToChars] using hm, ?_⟩
        exact isPyWs_false_of (by have h1 := (isDigit_toNat hdig).1; omega)
    | negSucc m =>
      cases hr : (natToChars (m + 1)).reverse with
      | nil =>
        exact absurd (by simpa using congrArg List.reverse hr) (natToChars_ne_nil (m + 1))
      | cons c t =>
        have hm : natToChars (m + 1) = t.reverse ++ [c] := by
          have h2 := congrArg List.reverse hr
          simpa using h2
        have hdig := natToChars_digits (m + 1) c (by rw [hm]; simp)
        refine ⟨'-' :: t.reverse, c, ?_, ?_⟩
        · show '-' :: natToChars (m + 1) = ('-' :: t.reverse) ++ [c]
          rw [hm]
          rfl
        · exact isPyWs_false_of (by have h1 := (isDigit_toNat hdig).1; omega)

/-- `dropWhile` is the identity when the head already fails the
predicate. -/
theorem dropWhile_head_false (f : Char → Bool) (l : List Char)
    (h : ∀ c, l.head? = some c → f c = false) : l.dropWhile f = l := by
  cases l with
  | nil => rfl
  | cons c r => rw [List.dropWhile_cons, if_neg (by simp [h c rfl])]

/-- Python `strip()` leaves a text unchanged when neither end is
whitespace. -/
theorem pyStripChars_eq_self (l : List Char)
    (h1 : ∀ c, l.head? = some c → isPyWs c = false)
    (h2 : ∀ c, l.reverse.head? = some c → isPyWs c = false) :
    pyStripChars l = l := by
  unfold pyStripChars
  rw [dropWhile_head_false _ _ h1, dropWhile_head_false _ _ h2, List.reverse_reverse]

/-- `rstrip(b"\r\n")` is the identity when the final character is neither
CR nor LF. -/
theorem rstripCRLF_eq_self (l : List Char)
    (h : ∀ c, l.reverse.head? = some c → (c = '\r' || c = '\n') = false) :
    rstripCRLF l = l := by
  unfold rstripCRLF
  rw [dropWhile_head_false _ _ h, List.reverse_reverse]

set_option maxHeartbeats 2000000 in
/-- The `splitlines` worker keeps one line over a boundary-free suffix. -/
theorem pySplitlinesAux_nosplit (cs : List Char)
    (h : ∀ c ∈ cs, isLineBoundary c = false) :
    ∀ cur, pySplitlinesAux cur cs = [cur.reverse ++ cs] := by
  induction cs with
  | nil => intro cur; simp [pySplitlinesAux]
  | cons c cs ih =>
    intro cur
    have hc := h c (by simp)
    have hcs : ∀ d ∈ cs, isLineBoundary d = false := fun d hd => h d (by simp [hd])
    rw [pySplitlinesAux.eq_def]
    split
    · simp_all
    · rename_i cs' heq
      injection heq with e1 e2
      subst e1
      exact absurd hc (by decide)
    · rename_i c2 cs2 heq
      injection heq with e1 e2
      subst e1
      subst e2
      rw [if_neg (by simp [hc])]
      rw [ih hcs]
      simp

/-- `splitlines` of a nonempty boundary-free text is that single line. -/
theorem pySplitlines_single (l : List Char) (hne : l ≠ [])
    (h : ∀ c ∈ l, isLineBoundary c = false) : pySplitlines l = [l] := by
  unfold pySplitlines
  rw [if_neg (by simpa using hne)]
  simpa using pySplitlinesAux_nosplit l h []

/-- Splitting a newline-free line followed by the blank-line terminator. -/
theorem splitCompleteLines_frame (l : List Char) (hl : '\n' ∉ l) :
    splitCompleteLines (l ++ ['\n', '\n']) = ([l, []], []) := by
  induction l with
  | nil => rfl
  | cons c cs ih =>
    have hc : c ≠ '\n' := fun h => hl (by simp [h])
    have hcs : '\n' ∉ cs := fun h => hl (by simp [h])
    show splitCompleteLines (c :: (cs ++ ['\n', '\n'])) = _
    rw [splitCompleteLines.eq_def]
    split
    · simp_all
    · rename_i c2 cs2 heq
      injection heq with e1 e2
      subst e1
      subst e2
      rw [if_neg hc, ih hcs]

/-- C6 (amended): for every well-formed JSON-serializable value `x` whose
compact serialization, trimmed, is not the `[DONE]` sentinel and contains
none of U+0085, U+2028, U+2029 (the only `str.splitlines` boundaries that
survive `json.dumps(ensure_ascii=False)` unescaped), encoding `x` as one
SSE frame and feeding the frame to a fresh decoder yields exactly one
event whose parsed-JSON view is `x`, and the flush emits nothing
further. -/
theorem sseRoundtrip_spec (x : PyVal)
    (hwf : pvWF x = true)
    (hnl : ∀ c ∈ (jsonDumpsCompact x).data,
      c ≠ Char.ofNat 0x85 ∧ c ≠ Char.ofNat 0x2028 ∧ c ≠ Char.ofNat 0x2029)
    (hdone : pyStrip (jsonDumpsCompact x) ≠ "[DONE]") :
    ((sseFeed decoderInit (encodeSSEJson x Option.none Option.none)).2).map evJson
        = [some x] ∧
    (sseEndOfInput (sseFeed decoderInit
        (encodeSSEJson x Option.none Option.none)).1).2 = [] := by
  have hb : ∀ c ∈ dumpVal [','] [':'] x, isLineBoundary c = false := by
    intro c hc
    exact isLineBoundary_false_of (dumpVal_ge_space x c hc)
      (hnl c hc).1 (hnl c hc).2.1 (hnl c hc).2.2
  have hne : dumpVal [','] [':'] x ≠ [] := by
    obtain ⟨c, t, heq, h0⟩ := dumpVal_head [','] [':'] x
    rw [heq]
    simp
  obtain ⟨t0, c0, hlast, hlastws⟩ := dumpVal_last x
  have hc0r : (c0 = '\r' || c0 = '\n') = false := by
    have h1 : c0 ≠ '\r' := by rintro rfl; exact absurd hlastws (by decide)
    have h2 : c0 ≠ '\n' := by rintro rfl; exact absurd hlastws (by decide)
    simp [h1, h2]
  have hneq : (jsonDumpsCompact x == "") = false := by
    rw [beq_eq_false_iff_ne]
    intro h
    apply hne
    simpa [jsonDumpsCompact] using congrArg String.data h
  have hsplit := pySplitlines_single (dumpVal [','] [':'] x) hne hb
  have henc : encodeSSEJson x Option.none Option.none =
      ("data: ".data ++ dumpVal [','] [':'] x) ++ ['\n', '\n'] := by
    show encodeSSEData (jsonDumpsCompact x) Option.none Option.none = _
    unfold encodeSSEData
    rw [show (jsonDumpsCompact x).data = dumpVal [','] [':'] x from rfl, hsplit]
    simp [hneq]
  have hLn : '\n' ∉ "data: ".data ++ dumpVal [','] [':'] x := by
    intro hmem
    rcases List.mem_append.mp hmem with h | h
    · exact absurd h (by decide)
    · exact absurd (hb '\n' h) (by decide)
  have hfeed := splitCompleteLines_frame ("data: ".data ++ dumpVal [','] [':'] x) hLn
  have hstrip : rstripCRLF ("data: ".data ++ dumpVal [','] [':'] x) =
      "data: ".data ++ dumpVal [','] [':'] x := by
    apply rstripCRLF_eq_self
    intro c hc
    rw [hlast] at hc
    simp only [List.reverse_append, List.reverse_cons, List.reverse_nil,
      List.nil_append, List.cons_append, List.head?_cons, Option.some.injEq] at hc
    subst hc
    exact hc0r
  have hdl1 : decoderLine ⟨[], [], 0⟩ ("data: ".data ++ dumpVal [','] [':'] x) =
      (⟨[], ["data: ".data ++ dumpVal [','] [':'] x], 0⟩, Option.none) := by
    unfold decoderLine
    rw [hstrip]
    rw [if_neg (by simp)]
    rfl
  have hdl2 : decoderLine ⟨[], ["data: ".data ++ dumpVal [','] [':'] x], 0⟩ [] =
      (⟨[], [], 1⟩,
        some (parseEventLines ["data: ".data ++ dumpVal [','] [':'] x] 1)) := rfl
  have hfold : List.foldl sseFeedStep (⟨[], [], 0⟩, ([] : List SSEEvent))
      ["data: ".data ++ dumpVal [','] [':'] x, []] =
      (⟨[], [], 1⟩,
        [parseEventLines ["data: ".data ++ dumpVal [','] [':'] x] 1]) := by
    simp only [List.foldl_cons, List.foldl_nil, sseFeedStep, hdl1, hdl2]
    rfl
  have hmain : sseFeed decoderInit
      (("data: ".data ++ dumpVal [','] [':'] x) ++ ['\n', '\n']) =
      (⟨[], [], 1⟩,
        [parseEventLines ["data: ".data ++ dumpVal [','] [':'] x] 1]) := by
    unfold sseFeed
    rw [if_neg (by simp)]
    simp only [decoderInit, List.nil_append, hfeed, hfold]
  have hev : parseEventLines ["data: ".data ++ dumpVal [','] [':'] x] 1 =
      ⟨Option.none, String.mk (dumpVal [','] [':'] x), Option.none, Option.none, 1⟩ :=
    rfl
  have hstripD : pyStrip (String.mk (dumpVal [','] [':'] x)) =
      String.mk (dumpVal [','] [':'] x) := by
    unfold pyStrip
    rw [show (String.mk (dumpVal [','] [':'] x)).data = dumpVal [','] [':'] x from rfl]
    rw [pyStripChars_eq_self _ (dumpVal_head_not_ws x) ?hl]
    case hl =>
      intro c hc
      rw [hlast] at hc
      simp only [List.reverse_append, List.reverse_cons, List.reverse_nil,
        List.nil_append, List.cons_append, List.head?_cons, Option.some.injEq] at hc
      subst hc
      exact hlastws
  have h1 : (pyStrip (String.mk (dumpVal [','] [':'] x)) == "[DONE]") = false := by
    rw [beq_eq_false_iff_ne, hstripD, ← hstripD]
    exact hdone
  have h2 : (pyStrip (String.mk (dumpVal [','] [':'] x)) == "") = false := by
    rw [beq_eq_false_iff_ne, hstripD]
    intro h
    apply hne
    simpa using congrArg String.data h
  have hevj : evJson
      ⟨Option.none, String.mk (dumpVal [','] [':'] x), Option.none, Option.none, 1⟩ =
      some x := by
    simp only [evJson, evIsDone, h1, h2, Bool.or_self, Bool.false_eq_true, if_false]
    rw [hstripD]
    exact jsonLoads_dumpCompact x
  rw [henc, hmain]
  constructor
  · simp only [List.map_cons, List.map_nil, hev, hevj]
  · rfl

/-- Witness for C6: the round-trip at the concrete value `1`. -/
theorem sseRoundtrip_spec_witness :
    ((sseFeed decoderInit (encodeSSEJson (PyVal.int 1) Option.none
        Option.none)).2).map evJson = [some (PyVal.int 1)] :=
  (sseRoundtrip_spec (PyVal.int 1) (by decide) (by decide) (by decide)).1

/-- C6 counterexample: for the string value consisting of the single
character U+2028 (LINE SEPARATOR), the trimmed serialization is not
`[DONE]`, yet the encode/decode round trip yields an event whose
parsed-JSON view is `None` rather than the value: the encoder splits the
serialization into two `data:` lines at U+2028 and the decoder rejoins
them with `\n`, which strict JSON parsing rejects. -/
theorem sseRoundtrip_claim_counterexample :
    pyStrip (jsonDumpsCompact (PyVal.str (String.mk [Char.ofNat 0x2028]))) ≠ "[DONE]" ∧
    ((sseFeed decoderInit (encodeSSEJson (PyVal.str (String.mk [Char.ofNat 0x2028]))
        Option.none Option.none)).2).map evJson = [Option.none] ∧
    (Option.none : Option PyVal) ≠ some (PyVal.str (String.mk [Char.ofNat 0x2028])) := by
  refine ⟨by decide, rfl, by simp⟩
